import Mathlib

/-!
Numeric-literal inference of `libponyc/expr/literal.c`

A shallow embedding of the literal resolver (`is_literal_subtype` and its
per-shape handlers), the widen/narrow combinators over the rank table and the
coercion propagator (`coerce_literals`, `propogate_coercion`).

Conventions of the embedding:

* `ast_t` is a value tree: a node has a token id, the string of its token, its
  children, its type slot and its data pointer. `ast_dup` is the identity and
  the `ast_free*` calls disappear.
* C functions that can stop the program return `Except fault`: a failed
  `assert` is `fault.assertion`, the use of a `NULL` node is `fault.null`.
* The resolver recurses through `viewpoint_upper`, a function of another
  compilation unit, so it is defined by recursion on a call-depth budget; an
  exhausted budget is `fault.fuel`.
* `is_subtype`, `type_builtin` and `viewpoint_upper` live in other files and
  are the fields of `env_t`.
-/

/-- Token ids used by `literal.c`; every other token is `TK_OTHER n`. -/
inductive token_id where
  | TK_NONE | TK_ID | TK_NOMINAL | TK_STRUCTURAL | TK_UNIONTYPE | TK_ISECTTYPE
  | TK_TUPLETYPE | TK_ARROW | TK_TYPEPARAMREF | TK_TYPEPARAM
  | TK_INTLITERAL | TK_FLOATLITERAL | TK_TUPLE | TK_SEQ
  | TK_ISO | TK_TRN | TK_REF | TK_VAL | TK_BOX | TK_TAG
  | TK_FUN | TK_TRAIT | TK_QUESTION | TK_COMPILER_INTRINSIC
  | TK_OTHER (n : Nat)
  deriving DecidableEq, Repr

/-- The syntax tree node: token id, token string, children, type slot, data. -/
inductive ast_t where
  | mk (id : token_id) (name : String) (children : List ast_t)
       (type : Option ast_t) (data : Option ast_t)

/-- The ways a call can stop without returning. -/
inductive fault where
  | assertion
  | null
  | fuel
  deriving DecidableEq, Repr

open token_id

/-- The functions `literal.c` takes from other compilation units. -/
structure env_t where
  is_subtype : ast_t → ast_t → Bool
  type_builtin : ast_t → String → ast_t
  viewpoint_upper : ast_t → ast_t

/-! ## The tree interface -/

def ast_id : ast_t → token_id
  | .mk id _ _ _ _ => id

def ast_name : ast_t → String
  | .mk _ name _ _ _ => name

def ast_children : ast_t → List ast_t
  | .mk _ _ children _ _ => children

def ast_type : ast_t → Option ast_t
  | .mk _ _ _ type _ => type

def ast_data : ast_t → Option ast_t
  | .mk _ _ _ _ data => data

def ast_childidx (ast : ast_t) (idx : Nat) : Option ast_t :=
  (ast_children ast)[idx]?

def ast_setid : ast_t → token_id → ast_t
  | .mk _ name children type data, id => .mk id name children type data

def ast_settype : ast_t → ast_t → ast_t
  | .mk id name children _ data, type => .mk id name children (some type) data

/-- The tree `ast` after `ast_setid(ast_childidx(ast, idx), id)`; `none` when
there is no such child. -/
def ast_setid_childidx (ast : ast_t) (idx : Nat) (id : token_id) : Option ast_t :=
  match ast with
  | .mk i name children type data =>
    match children[idx]? with
    | none => none
    | some c => some (.mk i name (children.set idx (ast_setid c id)) type data)

/-! ## `propogate_coercion`, `is_type_arith_literal` -/

def is_type_arith_literal (ast : ast_t) : Bool :=
  ast_id ast == TK_INTLITERAL || ast_id ast == TK_FLOATLITERAL

mutual
/-- The tree after `propogate_coercion(ast, type)`; a node without a type
fails the `assert` of `is_type_arith_literal`. -/
def propogate_coercion (type : ast_t) : ast_t → Except fault ast_t
  | .mk id name children ty data =>
    match ty with
    | none => .error fault.assertion
    | some t =>
      if !is_type_arith_literal t then .ok (.mk id name children (some t) data)
      else
        match propogate_coercion_children type children with
        | .error e => .error e
        | .ok children1 => .ok (.mk id name children1 (some type) data)
/-- The `for` loop of `propogate_coercion` over the children. -/
def propogate_coercion_children (type : ast_t) : List ast_t → Except fault (List ast_t)
  | [] => .ok []
  | p :: ps =>
    match propogate_coercion type p with
    | .error e => .error e
    | .ok p1 =>
      match propogate_coercion_children type ps with
      | .error e => .error e
      | .ok ps1 => .ok (p1 :: ps1)
end

/-! ## Rank table and combinators -/

def order : List String :=
  ["U8", "I8", "U16", "I16", "U32", "I32", "U64", "I64",
   "U128", "I128", "F32", "F64"]

/-- The value of `(size_t)-1`. -/
def SIZE_MAX : Nat := 2 ^ 64 - 1

/-- The `for` loop of `index_literal` from position `i` on; running off the
end of the table is the `assert(0)` after the loop. -/
def index_literal_loop (name : String) : List String → Nat → Except fault Nat
  | [], _ => .error fault.assertion
  | o :: os, i => if o = name then .ok i else index_literal_loop name os (i + 1)

def index_literal (type : ast_t) : Except fault Nat :=
  if ast_id type ≠ TK_NOMINAL then .ok SIZE_MAX
  else
    match ast_childidx type 1 with
    | none => .error fault.null
    | some id => index_literal_loop (ast_name id) order 0

def wide_literal (a b : Option ast_t) : Except fault (Option ast_t) :=
  match a, b with
  | none, _ => .ok b
  | some _, none => .ok a
  | some x, some y =>
    match index_literal x with
    | .error e => .error e
    | .ok a_index =>
      match index_literal y with
      | .error e => .error e
      | .ok b_index => .ok (if a_index ≥ b_index then a else b)

def narrow_literal (a b : Option ast_t) : Except fault (Option ast_t) :=
  match a, b with
  | none, _ => .ok b
  | some _, none => .ok a
  | some x, some y =>
    match index_literal x with
    | .error e => .error e
    | .ok a_index =>
      match index_literal y with
      | .error e => .error e
      | .ok b_index => .ok (if a_index ≤ b_index then a else b)

/-! ## The resolver -/

def nominal_check (env : env_t) (check : ast_t) (category : String) : Bool :=
  env.is_subtype check (env.type_builtin check category)

/-- The duplicate `check` is `type` with the id of child 3 set to `TK_VAL`;
`ast_setid` on a missing child is a use of `NULL`. -/
def nominal_literal (env : env_t) (literal_id : token_id) (type : ast_t) :
    Except fault (Option ast_t) :=
  match ast_setid_childidx type 3 TK_VAL with
  | none => .error fault.null
  | some check =>
    if literal_id = TK_INTLITERAL ∧ nominal_check env check "Signed" then
      .ok (some type)
    else if literal_id = TK_INTLITERAL ∧ nominal_check env check "Unsigned" then
      .ok (some type)
    else if nominal_check env check "Float" then
      .ok (some type)
    else
      .ok none

/-- The `for` loop of `structural_literal` over the rest of the table. -/
def structural_literal_loop (env : env_t) (literal_id : token_id) (type : ast_t) :
    List String → Option ast_t → Except fault (Option ast_t)
  | [], result => .ok result
  | o :: os, result =>
    match nominal_literal env literal_id (env.type_builtin type o) with
    | .error e => .error e
    | .ok none => structural_literal_loop env literal_id type os result
    | .ok (some attempt) =>
      if env.is_subtype attempt type then
        structural_literal_loop env literal_id type os (some attempt)
      else
        structural_literal_loop env literal_id type os result

def structural_literal (env : env_t) (literal_id : token_id) (type : ast_t) :
    Except fault (Option ast_t) :=
  structural_literal_loop env literal_id type order none

/-- The `while` loop of `union_literal`; `self` is `is_literal_subtype`. -/
def union_literal_loop (self : token_id → ast_t → Except fault (Option ast_t))
    (literal_id : token_id) : List ast_t → Option ast_t → Except fault (Option ast_t)
  | [], result => .ok result
  | child :: rest, result =>
    match self literal_id child with
    | .error e => .error e
    | .ok attempt =>
      match wide_literal result attempt with
      | .error e => .error e
      | .ok result1 => union_literal_loop self literal_id rest result1

def union_literal (self : token_id → ast_t → Except fault (Option ast_t))
    (literal_id : token_id) (type : ast_t) : Except fault (Option ast_t) :=
  union_literal_loop self literal_id (ast_children type) none

/-- The `while` loop of `isect_literal`; `self` is `is_literal_subtype`. -/
def isect_literal_loop (self : token_id → ast_t → Except fault (Option ast_t))
    (literal_id : token_id) : List ast_t → Option ast_t → Except fault (Option ast_t)
  | [], result => .ok result
  | child :: rest, result =>
    match self literal_id child with
    | .error e => .error e
    | .ok attempt =>
      match narrow_literal result attempt with
      | .error e => .error e
      | .ok result1 => isect_literal_loop self literal_id rest result1

def isect_literal (self : token_id → ast_t → Except fault (Option ast_t))
    (literal_id : token_id) (type : ast_t) : Except fault (Option ast_t) :=
  isect_literal_loop self literal_id (ast_children type) none

def arrow_literal (env : env_t) (self : token_id → ast_t → Except fault (Option ast_t))
    (literal_id : token_id) (type : ast_t) : Except fault (Option ast_t) :=
  match ast_childidx type 1 with
  | none => .error fault.null
  | some right =>
    match self literal_id (env.viewpoint_upper right) with
    | .error e => .error e
    | .ok none => .ok none
    | .ok (some _) => .ok (some type)

/-- The `while` loop of `constraint_literal`; `self` is `constraint_literal`. -/
def constraint_literal_loop (self : token_id → ast_t → Except fault (Option ast_t))
    (literal_id : token_id) : List ast_t → Option ast_t → Except fault (Option ast_t)
  | [], result => .ok result
  | child :: rest, result =>
    match self literal_id child with
    | .error e => .error e
    | .ok none => .ok none
    | .ok (some attempt) =>
      match wide_literal result (some attempt) with
      | .error e => .error e
      | .ok result1 => constraint_literal_loop self literal_id rest result1

def typeparam_literal (constraint_self : token_id → ast_t → Except fault (Option ast_t))
    (literal_id : token_id) (type : ast_t) : Except fault (Option ast_t) :=
  match ast_data type with
  | none => .error fault.null
  | some param =>
    match ast_childidx param 1 with
    | none => .error fault.null
    | some constraint =>
      match constraint_self literal_id constraint with
      | .error e => .error e
      | .ok none => .ok none
      | .ok (some _) => .ok (some type)

mutual
/-- The resolver, within a call-depth budget: `.ok none` is the `NULL` result,
an unrecognised target shape is the final `assert(0)`. -/
def is_literal_subtype (env : env_t) :
    Nat → token_id → ast_t → Except fault (Option ast_t)
  | 0, _, _ => .error fault.fuel
  | fuel + 1, literal_id, target =>
    if ¬ (literal_id = TK_INTLITERAL ∨ literal_id = TK_FLOATLITERAL) then
      .error fault.assertion
    else
      match ast_id target with
      | TK_NOMINAL => nominal_literal env literal_id target
      | TK_STRUCTURAL => structural_literal env literal_id target
      | TK_UNIONTYPE => union_literal (is_literal_subtype env fuel) literal_id target
      | TK_ISECTTYPE => isect_literal (is_literal_subtype env fuel) literal_id target
      | TK_TUPLETYPE => .ok none
      | TK_ARROW => arrow_literal env (is_literal_subtype env fuel) literal_id target
      | TK_TYPEPARAMREF =>
        typeparam_literal (constraint_literal env fuel) literal_id target
      | _ => .error fault.assertion
/-- The constraint rule for a type parameter's upper bound, within a
call-depth budget. -/
def constraint_literal (env : env_t) :
    Nat → token_id → ast_t → Except fault (Option ast_t)
  | 0, _, _ => .error fault.fuel
  | fuel + 1, literal_id, type =>
    if ast_id type ≠ TK_UNIONTYPE then
      is_literal_subtype env fuel literal_id type
    else
      constraint_literal_loop (constraint_literal env fuel) literal_id
        (ast_children type) none
end

/-! ## The coercion propagator -/

/-- What a call of `coerce_literals` leaves behind: the returned flag, the
tree after the call and the messages passed to `ast_error`. -/
structure coerce_result where
  ok : Bool
  ast : ast_t
  errors : List String

/-- What the tuple loop of `coerce_literals` leaves behind: whether every
element was coerced, the children after the loop, the element types appended
to `new_type` so far and the messages passed to `ast_error`. -/
structure coerce_tuple_result where
  ok : Bool
  children : List ast_t
  new_type : List ast_t
  errors : List String

/-- The type `coerce_literals` installs for a resolved target: a duplicate
whose child 3, when there is one, has its id set to `TK_VAL`. -/
def prom_type (target_type : ast_t) : ast_t :=
  match ast_setid_childidx target_type 3 TK_VAL with
  | none => target_type
  | some t => t

mutual
/-- The propagator; `none` as second argument is a `NULL` target. In the tuple
branch `ast_from` reads the old type node before the loop starts, and the new
tuple type is installed only when every element was coerced. -/
def coerce_literals (env : env_t) (fuel : Nat) :
    ast_t → Option ast_t → Except fault coerce_result
  | ast, none => .ok ⟨true, ast, []⟩
  | .mk id name children type data, some target_type =>
    if id = TK_TUPLE then
      if ast_id target_type ≠ TK_TUPLETYPE then .error fault.assertion
      else
        match type with
        | none => .error fault.null
        | some _ =>
          match coerce_literals_tuple env fuel children (ast_children target_type) [] with
          | .error e => .error e
          | .ok r =>
            if r.ok then
              .ok ⟨true, .mk id name r.children
                (some (.mk TK_TUPLETYPE "" r.new_type none none)) data, r.errors⟩
            else
              .ok ⟨false, .mk id name r.children type data, r.errors⟩
    else
      match type with
      | none => .ok ⟨true, .mk id name children none data, []⟩
      | some ty =>
        if !is_type_arith_literal ty then
          .ok ⟨true, .mk id name children (some ty) data, []⟩
        else
          match is_literal_subtype env fuel (ast_id ty) target_type with
          | .error e => .error e
          | .ok none =>
            .ok ⟨false, .mk id name children (some ty) data,
              ["cannot determine type of literal"]⟩
          | .ok (some resolved) =>
            match propogate_coercion (prom_type resolved)
                (.mk id name children (some ty) data) with
            | .error e => .error e
            | .ok ast1 => .ok ⟨true, ast1, []⟩
/-- The `while` loop of the tuple branch over the remaining children, the
remaining target elements and the element types collected so far; the
recursive call is made on the first child of each `TK_SEQ`. -/
def coerce_literals_tuple (env : env_t) (fuel : Nat) :
    List ast_t → List ast_t → List ast_t → Except fault coerce_tuple_result
  | [], [], new_type => .ok ⟨true, [], new_type, []⟩
  | [], _ :: _, _ => .error fault.assertion
  | _ :: _, [], _ => .error fault.assertion
  | .mk cid cname cchildren ctype cdata :: rest, target_child :: target_rest, new_type =>
    if cid ≠ TK_SEQ then .error fault.assertion
    else
      match cchildren with
      | [] => .error fault.assertion
      | first :: others =>
        match coerce_literals env fuel first (some target_child) with
        | .error e => .error e
        | .ok r =>
          if !r.ok then
            .ok ⟨false, .mk cid cname (r.ast :: others) ctype cdata :: rest,
              new_type, r.errors⟩
          else
            match ast_type r.ast with
            | none => .error fault.null
            | some new_element_type =>
              match coerce_literals_tuple env fuel rest target_rest
                  (new_type ++ [new_element_type]) with
              | .error e => .error e
              | .ok r1 =>
                .ok ⟨r1.ok, .mk cid cname (r.ast :: others) ctype cdata :: r1.children,
                  r1.new_type, r.errors ++ r1.errors⟩
end

/-! ## Type expressions and a reference oracle used in the concrete checks -/

def leaf (id : token_id) : ast_t := .mk id "" [] none none

def ident (name : String) : ast_t := .mk TK_ID name [] none none

/-- The nominal type `name cap`: package, id, type arguments, capability and
ephemerality, in the child order `literal.c` reads them (name at 1, cap at 3). -/
def nominal (name : String) (cap : token_id) : ast_t :=
  .mk TK_NOMINAL "" [leaf TK_NONE, ident name, leaf TK_NONE, leaf cap, leaf TK_NONE]
    none none

def union_of (members : List ast_t) : ast_t := .mk TK_UNIONTYPE "" members none none

def isect_of (members : List ast_t) : ast_t := .mk TK_ISECTTYPE "" members none none

def tuple_of (elements : List ast_t) : ast_t := .mk TK_TUPLETYPE "" elements none none

/-- A structural type requiring the named members. -/
def structural_of (members : List String) : ast_t :=
  .mk TK_STRUCTURAL "" (members.map ident) none none

def SIGNED : List String := ["I8", "I16", "I32", "I64", "I128"]

def UNSIGNED : List String := ["U8", "U16", "U32", "U64", "U128"]

def FLOAT : List String := ["F32", "F64"]

def nominal_name (type : ast_t) : String :=
  match ast_childidx type 1 with
  | none => ""
  | some id => ast_name id

/-- Member `unsigned_only` is provided by the unsigned primitives only and
member `signed_only` by the signed primitives only. -/
def provides (name member : String) : Bool :=
  (member == "unsigned_only" && UNSIGNED.contains name) ||
  (member == "signed_only" && SIGNED.contains name)

mutual
/-- A subtype oracle with the usual marker classification: `Signed`,
`Unsigned` and `Float` accept the primitives of their class, any other nominal
accepts its own name, a structural type accepts the primitives providing all
its members, a union any member's subtypes, an intersection the common ones. -/
def usual_is_subtype (sub : ast_t) : ast_t → Bool
  | .mk id _ children _ _ =>
    match id with
    | TK_NOMINAL =>
      match children[1]? with
      | none => false
      | some n =>
        if ast_name n = "Signed" then SIGNED.contains (nominal_name sub)
        else if ast_name n = "Unsigned" then UNSIGNED.contains (nominal_name sub)
        else if ast_name n = "Float" then FLOAT.contains (nominal_name sub)
        else nominal_name sub == ast_name n
    | TK_STRUCTURAL => children.all (fun m => provides (nominal_name sub) (ast_name m))
    | TK_UNIONTYPE => usual_is_subtype_any sub children
    | TK_ISECTTYPE => usual_is_subtype_all sub children
    | _ => false
def usual_is_subtype_any (sub : ast_t) : List ast_t → Bool
  | [] => false
  | m :: ms => usual_is_subtype sub m || usual_is_subtype_any sub ms
def usual_is_subtype_all (sub : ast_t) : List ast_t → Bool
  | [] => true
  | m :: ms => usual_is_subtype sub m && usual_is_subtype_all sub ms
end

/-- The reference environment: the usual oracle, builtin types as immutable
nominals, and a viewpoint upper bound that leaves its argument as it is. -/
def usual_env : env_t :=
  ⟨usual_is_subtype, fun _ name => nominal name TK_VAL, fun t => t⟩

/-! ## Positions in an expression tree -/

/-- The node reached from `ast` by following the child indices of `path`. -/
def subtree_at : ast_t → List Nat → Option ast_t
  | ast, [] => some ast
  | ast, i :: path =>
    match (ast_children ast)[i]? with
    | none => none
    | some child => subtree_at child path

/-- Whether the type slot of `ast` holds the unresolved-literal placeholder. -/
def has_literal_type (ast : ast_t) : Bool :=
  match ast_type ast with
  | none => false
  | some type => is_type_arith_literal type

/-- Whether `ast` and every node met on the way down `path`, the node reached
included, hold the placeholder. -/
def literal_chain : ast_t → List Nat → Bool
  | ast, [] => has_literal_type ast
  | ast, i :: path =>
    has_literal_type ast &&
      match (ast_children ast)[i]? with
      | none => false
      | some child => literal_chain child path

/-! ## Expressions used in the concrete checks -/

/-- An expression node without children whose type slot holds `type`. -/
def typed_leaf (id : token_id) (type : ast_t) : ast_t :=
  .mk id "" [] (some type) none

/-- An integer literal token, typed with the integer placeholder. -/
def int_literal : ast_t := typed_leaf (TK_OTHER 0) (leaf TK_INTLITERAL)

/-- A float literal token, typed with the float placeholder. -/
def float_literal : ast_t := typed_leaf (TK_OTHER 1) (leaf TK_FLOATLITERAL)

/-- The sequence `(f(1); 2)`: a call of concrete type `String` whose argument
is a literal, followed by a literal that gives the sequence its type. -/
def seq_call_then_literal : ast_t :=
  .mk TK_SEQ ""
    [.mk (TK_OTHER 2) "" [int_literal] (some (nominal "String" TK_VAL)) none,
     int_literal]
    (some (leaf TK_INTLITERAL)) none

/-- The tuple literal `(1, 2)` as `expr_tuple` types it. -/
def tuple_of_two_literals : ast_t :=
  .mk TK_TUPLE ""
    [.mk TK_SEQ "" [int_literal] (some (leaf TK_INTLITERAL)) none,
     .mk TK_SEQ "" [int_literal] (some (leaf TK_INTLITERAL)) none]
    (some (tuple_of [leaf TK_INTLITERAL, leaf TK_INTLITERAL])) none

/-- The sequence `seq` after the type slot of its first expression has been
set to `type`. -/
def seq_with_first_type (seq type : ast_t) : ast_t :=
  match seq with
  | .mk id name (first :: others) ty data =>
    .mk id name (ast_settype first type :: others) ty data
  | .mk id name [] ty data => .mk id name [] ty data

/-- Each tuple element is a `TK_SEQ` whose first expression is a childless
node typed with a placeholder, and the resolver returns the corresponding
entry of `resolved` for that placeholder and the corresponding target. -/
def elements_resolve (env : env_t) (fuel : Nat) :
    List ast_t → List ast_t → List ast_t → Prop
  | [], [], [] => True
  | seq :: seqs, target :: targets, r :: resolved =>
    (ast_id seq = TK_SEQ ∧
      ∃ first others lit, ast_children seq = first :: others ∧
        ast_id first ≠ TK_TUPLE ∧ ast_children first = [] ∧
        ast_type first = some lit ∧ is_type_arith_literal lit = true ∧
        is_literal_subtype env fuel (ast_id lit) target = .ok (some r)) ∧
    elements_resolve env fuel seqs targets resolved
  | _, _, _ => False

/-- The tuple literal `((f(); 3), 4)` after its literals were given the type
`U8`: the first element is a sequence whose first expression is a call of
type `String`. -/
def tuple_with_sequence_element : ast_t :=
  .mk TK_TUPLE ""
    [.mk TK_SEQ ""
       [typed_leaf (TK_OTHER 2) (nominal "String" TK_VAL),
        typed_leaf (TK_OTHER 0) (nominal "U8" TK_VAL)]
       (some (nominal "U8" TK_VAL)) none,
     .mk TK_SEQ "" [typed_leaf (TK_OTHER 0) (nominal "U8" TK_VAL)]
       (some (nominal "U8" TK_VAL)) none]
    (some (tuple_of [nominal "U8" TK_VAL, nominal "U8" TK_VAL])) none

/-- The comparison of two candidates that `index_literal` induces: both have a
rank and the first rank is the smaller one. -/
def rank_lt (a b : ast_t) : Prop :=
  ∃ i j, index_literal a = .ok i ∧ index_literal b = .ok j ∧ i < j

/-- The non-strict comparison of two candidates by rank: both have a rank and
the first rank is not the larger one. -/
def rank_leq (a b : ast_t) : Prop :=
  ∃ i j, index_literal a = .ok i ∧ index_literal b = .ok j ∧ i ≤ j

/-- Whether the loop of `structural_literal` keeps the table entry `name`: its
builtin type passes the marker rule of `nominal_literal` for the literal's
kind and is a subtype of the structural `type`. -/
def structural_candidate (env : env_t) (literal_id : token_id) (type : ast_t)
    (name : String) : Bool :=
  match nominal_literal env literal_id (env.type_builtin type name) with
  | .ok (some attempt) => env.is_subtype attempt type
  | _ => false

/-- A reference to a type parameter `name` whose declaration carries the
given constraint: the data pointer is the `TK_TYPEPARAM` node, the constraint
its child 1. -/
def typeparamref_of (name : String) (constraint : ast_t) : ast_t :=
  .mk TK_TYPEPARAMREF "" [ident name, leaf TK_NONE, leaf TK_NONE] none
    (some (.mk TK_TYPEPARAM "" [ident name, constraint, leaf TK_NONE] none none))

/-- The viewpoint type `left->right`. -/
def arrow_of (left right : ast_t) : ast_t :=
  .mk TK_ARROW "" [left, right] none none

/-! ## The function-body check -/

/-- The tree `ast` with its child `idx` replaced by `child`. -/
def ast_set_childidx (ast : ast_t) (idx : Nat) (child : ast_t) : ast_t :=
  match ast with
  | .mk id name children type data => .mk id name (children.set idx child) type data

/-- What a call of `expr_fun` leaves behind: the returned flag, the method
node after the call and the messages passed to `ast_error`. -/
structure expr_fun_result where
  ok : Bool
  ast : ast_t
  errors : List String

/-- The check of a method `ast`: child 4 is the result type, child 5 the
partiality mark, child 6 the body. `enclosing_type` is what
`ast_enclosing_type(ast)` finds and `ast_canerror` the error flag of a node,
both kept outside the tree. -/
def expr_fun (env : env_t) (fuel : Nat) (enclosing_type : ast_t)
    (ast_canerror : ast_t → Bool) (ast : ast_t) : Except fault expr_fun_result :=
  match ast_childidx ast 4, ast_childidx ast 5, ast_childidx ast 6 with
  | some type, some can_error, some body =>
    if ast_id body = TK_NONE then .ok ⟨true, ast, []⟩
    else
      match ast_type body with
      | none =>
        .ok ⟨false, ast,
          ["function body always results in an error", "function body expression is here"]⟩
      | some body_type =>
        if ast_id body_type = TK_COMPILER_INTRINSIC then .ok ⟨true, ast, []⟩
        else if ast_id can_error = TK_QUESTION ∧ ast_id enclosing_type ≠ TK_TRAIT ∧
            ast_canerror body = false then
          .ok ⟨false, ast, ["function body is not partial but the function is"]⟩
        else if ast_id can_error ≠ TK_QUESTION ∧ ast_canerror body = true then
          .ok ⟨false, ast, ["function body is partial but the function is not"]⟩
        else if ast_id ast = TK_FUN then
          if env.is_subtype body_type type = true then
            match coerce_literals env fuel body (some type) with
            | .error e => .error e
            | .ok r =>
              if r.ok then .ok ⟨true, ast_set_childidx ast 6 r.ast, r.errors⟩
              else
                .ok ⟨false, ast_set_childidx ast 6 r.ast,
                  r.errors ++ ["function body isn't a subtype of the result type",
                    "function body expression is here"]⟩
          else
            .ok ⟨false, ast,
              ["function body isn't a subtype of the result type",
               "function body expression is here"]⟩
        else .ok ⟨true, ast, []⟩
  | _, _, _ => .error fault.null

/-- The method `fun f(): I32 => 1`: capability, name, type parameters,
parameters, result type, partiality mark and body. -/
def fun_with_literal_body : ast_t :=
  .mk TK_FUN ""
    [leaf TK_NONE, ident "f", leaf TK_NONE, leaf TK_NONE, nominal "I32" TK_VAL, leaf TK_NONE,
     .mk TK_SEQ "" [int_literal] (some (leaf TK_INTLITERAL)) none]
    none none

/-- A subtype oracle that, like the usual one on concrete types, also accepts
a literal placeholder wherever the resolver finds a fit for it. -/
def literal_aware_is_subtype (sub super : ast_t) : Bool :=
  if is_type_arith_literal sub then
    match is_literal_subtype usual_env 16 (ast_id sub) super with
    | .ok (some _) => true
    | _ => false
  else usual_is_subtype sub super

def literal_aware_env : env_t :=
  ⟨literal_aware_is_subtype, fun _ name => nominal name TK_VAL, fun t => t⟩

/-! ## The tuple-expression check -/

/-- What a call of `expr_tuple` leaves behind: the returned flag, the tuple
node after the call and the messages passed to `ast_error`. -/
structure expr_tuple_result where
  ok : Bool
  ast : ast_t
  errors : List String

/-- The `while` loop of `expr_tuple`: the type of every child, in order, or
`none` when a child has no type. -/
def expr_tuple_types : List ast_t → Option (List ast_t)
  | [] => some []
  | child :: rest =>
    match ast_type child with
    | none => none
    | some c_type =>
      match expr_tuple_types rest with
      | none => none
      | some types => some (c_type :: types)

/-- The typing of a tuple literal: a single child gives the tuple its own
type, several children give it the tuple type of the children's types. A
tuple without children is a use of `NULL` in `ast_sibling`. -/
def expr_tuple (ast : ast_t) : Except fault expr_tuple_result :=
  match ast with
  | .mk id name children type data =>
    match children with
    | [] => .error fault.null
    | [child] => .ok ⟨true, .mk id name [child] (ast_type child) data, []⟩
    | child :: sibling :: rest =>
      match expr_tuple_types (child :: sibling :: rest) with
      | none =>
        .ok ⟨false, .mk id name (child :: sibling :: rest) type data,
          ["a tuple can't contain a control flow statement that never results in a value"]⟩
      | some types =>
        .ok ⟨true, .mk id name (child :: sibling :: rest)
          (some (.mk TK_TUPLETYPE "" types none none)) data, []⟩

/-- Each tuple element is a `TK_SEQ` whose first expression is not a tuple
literal and carries the corresponding entry of `types`, a type that is not a
placeholder. -/
def elements_concrete : List ast_t → List ast_t → Prop
  | [], [] => True
  | seq :: seqs, type :: types =>
    (ast_id seq = TK_SEQ ∧
      ∃ first others, ast_children seq = first :: others ∧
        ast_id first ≠ TK_TUPLE ∧ ast_type first = some type ∧
        is_type_arith_literal type = false) ∧
    elements_concrete seqs types
  | _, _ => False

/-! ## Unfolding the resolver by target shape -/

theorem ast_setid_childidx_nominal (name : String) (cap id : token_id) :
    ast_setid_childidx (nominal name cap) 3 id = some (nominal name id) := by
  rfl

theorem nominal_literal_nominal (env : env_t) (literal_id : token_id) (name : String)
    (cap : token_id) :
    nominal_literal env literal_id (nominal name cap) =
      .ok (if (literal_id = TK_INTLITERAL ∧
                (nominal_check env (nominal name TK_VAL) "Signed" = true ∨
                 nominal_check env (nominal name TK_VAL) "Unsigned" = true)) ∨
              nominal_check env (nominal name TK_VAL) "Float" = true
           then some (nominal name cap) else none) := by
  unfold nominal_literal
  rw [ast_setid_childidx_nominal]
  by_cases h1 : literal_id = TK_INTLITERAL <;>
  cases h2 : nominal_check env (nominal name TK_VAL) "Signed" <;>
  cases h3 : nominal_check env (nominal name TK_VAL) "Unsigned" <;>
  cases h4 : nominal_check env (nominal name TK_VAL) "Float" <;>
  simp [h1, h2, h3, h4]

theorem is_literal_subtype_nominal (env : env_t) (fuel : Nat) (literal_id : token_id)
    (hlit : literal_id = TK_INTLITERAL ∨ literal_id = TK_FLOATLITERAL)
    (name : String) (cap : token_id) :
    is_literal_subtype env (fuel + 1) literal_id (nominal name cap) =
      nominal_literal env literal_id (nominal name cap) := by
  rw [is_literal_subtype]
  simp only [hlit, not_true_eq_false, if_false]
  rfl

theorem is_literal_subtype_union (env : env_t) (fuel : Nat) (literal_id : token_id)
    (hlit : literal_id = TK_INTLITERAL ∨ literal_id = TK_FLOATLITERAL)
    (members : List ast_t) :
    is_literal_subtype env (fuel + 1) literal_id (union_of members) =
      union_literal_loop (is_literal_subtype env fuel) literal_id members none := by
  rw [is_literal_subtype]
  simp only [hlit, not_true_eq_false, if_false]
  rfl

theorem is_literal_subtype_isect (env : env_t) (fuel : Nat) (literal_id : token_id)
    (hlit : literal_id = TK_INTLITERAL ∨ literal_id = TK_FLOATLITERAL)
    (members : List ast_t) :
    is_literal_subtype env (fuel + 1) literal_id (isect_of members) =
      isect_literal_loop (is_literal_subtype env fuel) literal_id members none := by
  rw [is_literal_subtype]
  simp only [hlit, not_true_eq_false, if_false]
  rfl

theorem nominal_ne_of_name_ne {n m : String} (c d : token_id) (h : n ≠ m) :
    nominal n c ≠ nominal m d := by
  intro heq
  simp [nominal, ident] at heq
  exact h heq.1

theorem index_literal_nominal (name : String) (cap : token_id) :
    index_literal (nominal name cap) = index_literal_loop name order 0 := by
  rfl

/-! ## C1: the union of `I32` and `F64` -/

/-- C1 (as stated, refuted): with the usual marker classification the integer
literal resolves against `Union{I32, F64}` to `F64`, not to `I32`. -/
theorem C1_union_I32_F64_not_I32 :
    nominal_check usual_env (nominal "I32" TK_VAL) "Signed" = true ∧
    nominal_check usual_env (nominal "I32" TK_VAL) "Float" = false ∧
    nominal_check usual_env (nominal "F64" TK_VAL) "Float" = true ∧
    nominal_check usual_env (nominal "F64" TK_VAL) "Signed" = false ∧
    nominal_check usual_env (nominal "F64" TK_VAL) "Unsigned" = false ∧
    is_literal_subtype usual_env 2 TK_INTLITERAL
        (union_of [nominal "I32" TK_VAL, nominal "F64" TK_VAL]) =
      .ok (some (nominal "F64" TK_VAL)) ∧
    is_literal_subtype usual_env 2 TK_INTLITERAL
        (union_of [nominal "I32" TK_VAL, nominal "F64" TK_VAL]) ≠
      .ok (some (nominal "I32" TK_VAL)) := by
  refine ⟨rfl, rfl, rfl, rfl, rfl, rfl, ?_⟩
  have h : is_literal_subtype usual_env 2 TK_INTLITERAL
        (union_of [nominal "I32" TK_VAL, nominal "F64" TK_VAL]) =
      .ok (some (nominal "F64" TK_VAL)) := rfl
  rw [h]
  intro heq
  injection heq with heq
  injection heq with heq
  exact nominal_ne_of_name_ne TK_VAL TK_VAL (by decide) heq

/-- C1 (amended): whenever `I32` passes the `Signed` marker and `F64` passes
the `Float` marker, the integer literal resolves against `Union{I32, F64}` to
the `F64` member, the wider of the two members that both resolve. -/
theorem C1_union_I32_F64_is_F64 (env : env_t) (fuel : Nat) (c1 c2 : token_id)
    (hI32 : nominal_check env (nominal "I32" TK_VAL) "Signed" = true)
    (hF64 : nominal_check env (nominal "F64" TK_VAL) "Float" = true) :
    is_literal_subtype env (fuel + 2) TK_INTLITERAL
        (union_of [nominal "I32" c1, nominal "F64" c2]) =
      .ok (some (nominal "F64" c2)) := by
  have hint : (TK_INTLITERAL = TK_INTLITERAL ∨ TK_INTLITERAL = TK_FLOATLITERAL) :=
    Or.inl rfl
  have e1 := is_literal_subtype_nominal env fuel TK_INTLITERAL hint "I32" c1
  have e2 := is_literal_subtype_nominal env fuel TK_INTLITERAL hint "F64" c2
  rw [nominal_literal_nominal] at e1 e2
  simp only [hI32, hF64, true_or, or_true, and_self, if_true] at e1 e2
  have i1 : index_literal (nominal "I32" c1) = .ok 5 := rfl
  have i2 : index_literal (nominal "F64" c2) = .ok 11 := rfl
  rw [is_literal_subtype_union env (fuel + 1) TK_INTLITERAL hint]
  simp [union_literal_loop, e1, e2, wide_literal, i1, i2]

theorem C1_union_I32_F64_is_F64_witness :
    nominal_check usual_env (nominal "I32" TK_VAL) "Signed" = true ∧
    nominal_check usual_env (nominal "F64" TK_VAL) "Float" = true ∧
    is_literal_subtype usual_env (0 + 2) TK_INTLITERAL
        (union_of [nominal "I32" TK_VAL, nominal "F64" TK_VAL]) =
      .ok (some (nominal "F64" TK_VAL)) :=
  ⟨rfl, rfl, C1_union_I32_F64_is_F64 usual_env 0 TK_VAL TK_VAL rfl rfl⟩

/-! ## C2: the intersection of two structural bounds -/

theorem narrow_literal_eq_none (a b : Option ast_t) :
    narrow_literal a b = .ok none ↔ a = none ∧ b = none := by
  cases a with
  | none => simp [narrow_literal]
  | some x =>
    cases b with
    | none => simp [narrow_literal]
    | some y =>
      simp only [narrow_literal]
      cases index_literal x with
      | error e => simp
      | ok i =>
        cases index_literal y with
        | error e => simp
        | ok j => by_cases h : i ≤ j <;> simp [h]

theorem is_literal_subtype_structural (env : env_t) (fuel : Nat) (literal_id : token_id)
    (hlit : literal_id = TK_INTLITERAL ∨ literal_id = TK_FLOATLITERAL)
    (type : ast_t) (hid : ast_id type = TK_STRUCTURAL) :
    is_literal_subtype env (fuel + 1) literal_id type =
      structural_literal env literal_id type := by
  rw [is_literal_subtype]
  simp only [hlit, not_true_eq_false, if_false, hid]

/-- C2 (as stated, refuted): one bound is satisfied by exactly the unsigned
primitives of the table, the other by exactly the signed ones, no primitive by
both, and the integer literal still resolves against their intersection, to
`U128`. -/
theorem C2_isect_of_disjoint_bounds_resolves :
    order.filter (fun n => usual_env.is_subtype (nominal n TK_VAL)
        (structural_of ["unsigned_only"])) = UNSIGNED ∧
    order.filter (fun n => usual_env.is_subtype (nominal n TK_VAL)
        (structural_of ["signed_only"])) = SIGNED ∧
    order.filter (fun n =>
        usual_env.is_subtype (nominal n TK_VAL) (structural_of ["unsigned_only"]) &&
        usual_env.is_subtype (nominal n TK_VAL) (structural_of ["signed_only"])) = [] ∧
    is_literal_subtype usual_env 2 TK_INTLITERAL
        (isect_of [structural_of ["unsigned_only"], structural_of ["signed_only"]]) =
      .ok (some (nominal "U128" TK_VAL)) ∧
    is_literal_subtype usual_env 2 TK_INTLITERAL
        (isect_of [structural_of ["unsigned_only"], structural_of ["signed_only"]]) ≠
      .ok none := by
  refine ⟨rfl, rfl, rfl, rfl, ?_⟩
  have h : is_literal_subtype usual_env 2 TK_INTLITERAL
        (isect_of [structural_of ["unsigned_only"], structural_of ["signed_only"]]) =
      .ok (some (nominal "U128" TK_VAL)) := rfl
  rw [h]
  simp

/-- C2 (amended): against the intersection of two structural bounds the
resolver returns `narrow_literal` of the two bounds' own resolutions, so it
returns no fit only when neither bound resolves on its own. -/
theorem C2_isect_of_bounds_is_narrow (env : env_t) (fuel : Nat) (literal_id : token_id)
    (A B : ast_t) (ra rb : Option ast_t)
    (hlit : literal_id = TK_INTLITERAL ∨ literal_id = TK_FLOATLITERAL)
    (hA : ast_id A = TK_STRUCTURAL) (hB : ast_id B = TK_STRUCTURAL)
    (ha : structural_literal env literal_id A = .ok ra)
    (hb : structural_literal env literal_id B = .ok rb) :
    is_literal_subtype env (fuel + 2) literal_id (isect_of [A, B]) =
        narrow_literal ra rb ∧
    (is_literal_subtype env (fuel + 2) literal_id (isect_of [A, B]) = .ok none ↔
      ra = none ∧ rb = none) := by
  have e : is_literal_subtype env (fuel + 2) literal_id (isect_of [A, B]) =
      narrow_literal ra rb := by
    rw [is_literal_subtype_isect env (fuel + 1) literal_id hlit]
    have ea := is_literal_subtype_structural env fuel literal_id hlit A hA
    have eb := is_literal_subtype_structural env fuel literal_id hlit B hB
    rw [ha] at ea
    rw [hb] at eb
    simp only [isect_literal_loop, ea, eb]
    have n0 : narrow_literal none ra = .ok ra := by simp [narrow_literal]
    rw [n0]
    cases hn : narrow_literal ra rb <;> simp [hn]
  exact ⟨e, by rw [e]; exact narrow_literal_eq_none ra rb⟩

theorem C2_isect_of_bounds_is_narrow_witness :
    (TK_INTLITERAL = TK_INTLITERAL ∨ TK_INTLITERAL = TK_FLOATLITERAL) ∧
    ast_id (structural_of ["unsigned_only"]) = TK_STRUCTURAL ∧
    ast_id (structural_of ["signed_only"]) = TK_STRUCTURAL ∧
    structural_literal usual_env TK_INTLITERAL (structural_of ["unsigned_only"]) =
      .ok (some (nominal "U128" TK_VAL)) ∧
    structural_literal usual_env TK_INTLITERAL (structural_of ["signed_only"]) =
      .ok (some (nominal "I128" TK_VAL)) ∧
    is_literal_subtype usual_env (0 + 2) TK_INTLITERAL
        (isect_of [structural_of ["unsigned_only"], structural_of ["signed_only"]]) =
      narrow_literal (some (nominal "U128" TK_VAL)) (some (nominal "I128" TK_VAL)) :=
  ⟨Or.inl rfl, rfl, rfl, rfl, rfl,
    (C2_isect_of_bounds_is_narrow usual_env 0 TK_INTLITERAL
      (structural_of ["unsigned_only"]) (structural_of ["signed_only"])
      (some (nominal "U128" TK_VAL)) (some (nominal "I128" TK_VAL))
      (Or.inl rfl) rfl rfl rfl rfl).1⟩

/-! ## C3, C4: nominal targets -/

/-- C3 (as stated, refuted): `F64` passes neither the `Signed` nor the
`Unsigned` marker, and the integer literal still resolves against it. -/
theorem C3_int_literal_resolves_against_F64 :
    "F64" ∈ order ∧
    nominal_check usual_env (nominal "F64" TK_VAL) "Signed" = false ∧
    nominal_check usual_env (nominal "F64" TK_VAL) "Unsigned" = false ∧
    is_literal_subtype usual_env 1 TK_INTLITERAL (nominal "F64" TK_VAL) =
      .ok (some (nominal "F64" TK_VAL)) :=
  ⟨by decide, rfl, rfl, rfl⟩

/-- C3 (amended): an integer literal resolves against `Nominal(P)`, to `P`
itself, exactly when the immutable copy of `P` passes the `Signed`, the
`Unsigned` or the `Float` marker; otherwise the result is no fit. -/
theorem C3_int_literal_nominal (env : env_t) (fuel : Nat) (P : String) (cap : token_id) :
    (is_literal_subtype env (fuel + 1) TK_INTLITERAL (nominal P cap) =
        .ok (some (nominal P cap)) ↔
      (nominal_check env (nominal P TK_VAL) "Signed" = true ∨
       nominal_check env (nominal P TK_VAL) "Unsigned" = true ∨
       nominal_check env (nominal P TK_VAL) "Float" = true)) ∧
    (is_literal_subtype env (fuel + 1) TK_INTLITERAL (nominal P cap) =
        .ok (some (nominal P cap)) ∨
      is_literal_subtype env (fuel + 1) TK_INTLITERAL (nominal P cap) = .ok none) := by
  rw [is_literal_subtype_nominal env fuel TK_INTLITERAL (Or.inl rfl),
    nominal_literal_nominal]
  cases nominal_check env (nominal P TK_VAL) "Signed" <;>
  cases nominal_check env (nominal P TK_VAL) "Unsigned" <;>
  cases nominal_check env (nominal P TK_VAL) "Float" <;>
  simp

/-- C4: a float literal resolves against `Nominal(P)`, to `P` itself, exactly
when the immutable copy of `P` passes the `Float` marker, and is no fit
otherwise; the result is the same under any oracle that agrees on that one
`Float` query, whatever it answers for `Signed` and `Unsigned`; under the
usual classification exactly `F32` and `F64` resolve. -/
theorem C4_float_literal_nominal (env : env_t) (fuel : Nat) (P : String) (cap : token_id) :
    is_literal_subtype env (fuel + 1) TK_FLOATLITERAL (nominal P cap) =
        .ok (if nominal_check env (nominal P TK_VAL) "Float" = true
             then some (nominal P cap) else none) ∧
    (is_literal_subtype env (fuel + 1) TK_FLOATLITERAL (nominal P cap) =
        .ok (some (nominal P cap)) ↔
      nominal_check env (nominal P TK_VAL) "Float" = true) ∧
    (∀ env2 : env_t,
      nominal_check env2 (nominal P TK_VAL) "Float" =
        nominal_check env (nominal P TK_VAL) "Float" →
      is_literal_subtype env2 (fuel + 1) TK_FLOATLITERAL (nominal P cap) =
        is_literal_subtype env (fuel + 1) TK_FLOATLITERAL (nominal P cap)) ∧
    (is_literal_subtype usual_env (fuel + 1) TK_FLOATLITERAL (nominal P cap) =
        .ok (some (nominal P cap)) ↔ P = "F32" ∨ P = "F64") := by
  have hf : (TK_FLOATLITERAL = TK_INTLITERAL ∨ TK_FLOATLITERAL = TK_FLOATLITERAL) :=
    Or.inr rfl
  have key : ∀ e : env_t,
      is_literal_subtype e (fuel + 1) TK_FLOATLITERAL (nominal P cap) =
        .ok (if nominal_check e (nominal P TK_VAL) "Float" = true
             then some (nominal P cap) else none) := by
    intro e
    rw [is_literal_subtype_nominal e fuel TK_FLOATLITERAL hf, nominal_literal_nominal]
    simp
  have usual : nominal_check usual_env (nominal P TK_VAL) "Float" = true ↔
      P = "F32" ∨ P = "F64" := by
    have : nominal_check usual_env (nominal P TK_VAL) "Float" = FLOAT.contains P := rfl
    rw [this]
    simp [FLOAT]
  refine ⟨key env, ?_, ?_, ?_⟩
  · rw [key env]
    cases nominal_check env (nominal P TK_VAL) "Float" <;> simp
  · intro env2 h
    rw [key env, key env2, h]
  · rw [key usual_env, ← usual]
    cases nominal_check usual_env (nominal P TK_VAL) "Float" <;> simp

/-! ## Propagation of an installed type -/

@[simp] theorem ast_id_mk (id : token_id) (name : String) (children : List ast_t)
    (type data : Option ast_t) : ast_id (.mk id name children type data) = id := rfl

@[simp] theorem ast_type_mk (id : token_id) (name : String) (children : List ast_t)
    (type data : Option ast_t) : ast_type (.mk id name children type data) = type := rfl

@[simp] theorem ast_children_mk (id : token_id) (name : String) (children : List ast_t)
    (type data : Option ast_t) :
    ast_children (.mk id name children type data) = children := rfl

@[simp] theorem ast_data_mk (id : token_id) (name : String) (children : List ast_t)
    (type data : Option ast_t) : ast_data (.mk id name children type data) = data := rfl

theorem propogate_coercion_children_get (type : ast_t) :
    ∀ (cs cs1 : List ast_t), propogate_coercion_children type cs = .ok cs1 →
      ∀ (i : Nat) (c : ast_t), cs[i]? = some c →
        ∃ c1, cs1[i]? = some c1 ∧ propogate_coercion type c = .ok c1 := by
  intro cs
  induction cs with
  | nil => intro cs1 _ i c hc; simp at hc
  | cons p ps ih =>
    intro cs1 h i c hc
    rw [propogate_coercion_children] at h
    cases hp : propogate_coercion type p with
    | error e => simp [hp] at h
    | ok p1 =>
      cases hps : propogate_coercion_children type ps with
      | error e => simp [hp, hps] at h
      | ok ps1 =>
        simp [hp, hps] at h
        subst h
        cases i with
        | zero =>
          simp at hc
          subst hc
          exact ⟨p1, by simp, hp⟩
        | succ j =>
          simp at hc
          obtain ⟨c1, h1, h2⟩ := ih ps1 hps j c hc
          exact ⟨c1, by simpa using h1, h2⟩

theorem propogate_coercion_at (type : ast_t) :
    ∀ (path : List Nat) (ast ast1 : ast_t), propogate_coercion type ast = .ok ast1 →
      ∀ node, subtree_at ast path = some node →
        ∃ node1, subtree_at ast1 path = some node1 ∧
          ast_type node1 = if literal_chain ast path = true then some type else ast_type node := by
  intro path
  induction path with
  | nil =>
    intro ast ast1 h node hn
    simp only [subtree_at, Option.some.injEq] at hn
    subst hn
    obtain ⟨id, name, children, ty, data⟩ := ast
    unfold propogate_coercion at h
    cases ty with
    | none => simp at h
    | some t =>
      simp only at h
      by_cases hl : is_type_arith_literal t = true
      · simp only [hl, Bool.not_true, Bool.false_eq_true, if_false] at h
        cases hc : propogate_coercion_children type children with
        | error e => simp [hc] at h
        | ok cs1 =>
          simp [hc] at h
          subst h
          exact ⟨_, rfl, by simp [literal_chain, has_literal_type, hl]⟩
      · simp only [hl, Bool.not_false, if_true, Bool.not_eq_true] at h
        simp at hl
        simp [hl] at h
        subst h
        exact ⟨_, rfl, by simp [literal_chain, has_literal_type, hl]⟩
  | cons i rest ih =>
    intro ast ast1 h node hn
    obtain ⟨id, name, children, ty, data⟩ := ast
    unfold propogate_coercion at h
    simp only [subtree_at, ast_children_mk] at hn
    cases hci : children[i]? with
    | none => simp [hci] at hn
    | some c =>
      simp only [hci] at hn
      cases ty with
      | none => simp at h
      | some t =>
        simp only at h
        by_cases hl : is_type_arith_literal t = true
        · simp only [hl, Bool.not_true, Bool.false_eq_true, if_false] at h
          cases hc : propogate_coercion_children type children with
          | error e => simp [hc] at h
          | ok cs1 =>
            simp [hc] at h
            subst h
            obtain ⟨c1, hc1, hp1⟩ := propogate_coercion_children_get type children cs1 hc i c hci
            obtain ⟨node1, hn1, ht1⟩ := ih c c1 hp1 node hn
            refine ⟨node1, ?_, ?_⟩
            · simp [subtree_at, hc1, hn1]
            · rw [ht1]; simp [literal_chain, has_literal_type, hl, hci]
        · simp at hl
          simp [hl] at h
          subst h
          refine ⟨node, ?_, ?_⟩
          · simp [subtree_at, hci, hn]
          · simp [literal_chain, has_literal_type, hl]

/-! ## What the resolver can return -/

theorem wide_literal_cases (a b r : Option ast_t) (h : wide_literal a b = .ok r) :
    r = a ∨ r = b := by
  cases a with
  | none => simp [wide_literal] at h; exact Or.inr h.symm
  | some x =>
    cases b with
    | none => simp [wide_literal] at h; exact Or.inl h.symm
    | some y =>
      simp only [wide_literal] at h
      cases hx : index_literal x with
      | error e => simp [hx] at h
      | ok i =>
        cases hy : index_literal y with
        | error e => simp [hx, hy] at h
        | ok j =>
          simp only [hx, hy, Except.ok.injEq] at h
          by_cases hij : i ≥ j
          · simp only [hij, if_true] at h; exact Or.inl h.symm
          · simp only [hij, if_false] at h; exact Or.inr h.symm

theorem narrow_literal_cases (a b r : Option ast_t) (h : narrow_literal a b = .ok r) :
    r = a ∨ r = b := by
  cases a with
  | none => simp [narrow_literal] at h; exact Or.inr h.symm
  | some x =>
    cases b with
    | none => simp [narrow_literal] at h; exact Or.inl h.symm
    | some y =>
      simp only [narrow_literal] at h
      cases hx : index_literal x with
      | error e => simp [hx] at h
      | ok i =>
        cases hy : index_literal y with
        | error e => simp [hx, hy] at h
        | ok j =>
          simp only [hx, hy, Except.ok.injEq] at h
          by_cases hij : i ≤ j
          · simp only [hij, if_true] at h; exact Or.inl h.symm
          · simp only [hij, if_false] at h; exact Or.inr h.symm

theorem nominal_literal_some (env : env_t) (literal_id : token_id) (type t : ast_t)
    (h : nominal_literal env literal_id type = .ok (some t)) : t = type := by
  unfold nominal_literal at h
  cases hc : ast_setid_childidx type 3 TK_VAL with
  | none => simp [hc] at h
  | some check =>
    simp only [hc] at h
    split at h
    · simpa using h.symm
    · split at h
      · simpa using h.symm
      · split at h
        · simpa using h.symm
        · simp at h

theorem structural_literal_loop_inv (env : env_t) (literal_id : token_id) (type : ast_t)
    (P : ast_t → Prop) (hP : ∀ name, P (env.type_builtin type name)) :
    ∀ (names : List String) (result : Option ast_t) (t : ast_t),
      (∀ x, result = some x → P x) →
      structural_literal_loop env literal_id type names result = .ok (some t) → P t := by
  intro names
  induction names with
  | nil =>
    intro result t hr h
    simp only [structural_literal_loop, Except.ok.injEq] at h
    exact hr t h
  | cons o os ih =>
    intro result t hr h
    simp only [structural_literal_loop] at h
    cases hn : nominal_literal env literal_id (env.type_builtin type o) with
    | error e => simp [hn] at h
    | ok attempt =>
      cases attempt with
      | none => simp only [hn] at h; exact ih result t hr h
      | some a =>
        simp only [hn] at h
        have ha : a = env.type_builtin type o := nominal_literal_some env literal_id _ a hn
        split at h
        · exact ih (some a) t (by intro x hx; simp at hx; subst hx; rw [ha]; exact hP o) h
        · exact ih result t hr h

theorem union_literal_loop_inv (self : token_id → ast_t → Except fault (Option ast_t))
    (literal_id : token_id) (P : ast_t → Prop) :
    ∀ (members : List ast_t) (result : Option ast_t) (t : ast_t),
      (∀ c x, c ∈ members → self literal_id c = .ok (some x) → P x) →
      (∀ x, result = some x → P x) →
      union_literal_loop self literal_id members result = .ok (some t) → P t := by
  intro members
  induction members with
  | nil =>
    intro result t _ hr h
    simp only [union_literal_loop, Except.ok.injEq] at h
    exact hr t h
  | cons c cs ih =>
    intro result t hs hr h
    simp only [union_literal_loop] at h
    cases hc : self literal_id c with
    | error e => simp [hc] at h
    | ok attempt =>
      simp only [hc] at h
      cases hw : wide_literal result attempt with
      | error e => simp [hw] at h
      | ok result1 =>
        simp only [hw] at h
        refine ih result1 t (fun c1 x hc1 hx => hs c1 x (List.mem_cons_of_mem _ hc1) hx) ?_ h
        intro x hx
        rcases wide_literal_cases _ _ _ hw with h1 | h1
        · exact hr x (by rw [← h1, hx])
        · exact hs c x (List.mem_cons_self _ _) (by rw [hc, ← h1, hx])

theorem isect_literal_loop_inv (self : token_id → ast_t → Except fault (Option ast_t))
    (literal_id : token_id) (P : ast_t → Prop) :
    ∀ (members : List ast_t) (result : Option ast_t) (t : ast_t),
      (∀ c x, c ∈ members → self literal_id c = .ok (some x) → P x) →
      (∀ x, result = some x → P x) →
      isect_literal_loop self literal_id members result = .ok (some t) → P t := by
  intro members
  induction members with
  | nil =>
    intro result t _ hr h
    simp only [isect_literal_loop, Except.ok.injEq] at h
    exact hr t h
  | cons c cs ih =>
    intro result t hs hr h
    simp only [isect_literal_loop] at h
    cases hc : self literal_id c with
    | error e => simp [hc] at h
    | ok attempt =>
      simp only [hc] at h
      cases hw : narrow_literal result attempt with
      | error e => simp [hw] at h
      | ok result1 =>
        simp only [hw] at h
        refine ih result1 t (fun c1 x hc1 hx => hs c1 x (List.mem_cons_of_mem _ hc1) hx) ?_ h
        intro x hx
        rcases narrow_literal_cases _ _ _ hw with h1 | h1
        · exact hr x (by rw [← h1, hx])
        · exact hs c x (List.mem_cons_self _ _) (by rw [hc, ← h1, hx])

theorem arrow_literal_some (env : env_t)
    (self : token_id → ast_t → Except fault (Option ast_t)) (literal_id : token_id)
    (type t : ast_t) (h : arrow_literal env self literal_id type = .ok (some t)) :
    t = type := by
  unfold arrow_literal at h
  split at h
  · simp at h
  · split at h
    · simp at h
    · simp at h
    · simpa using h.symm

theorem typeparam_literal_some (self : token_id → ast_t → Except fault (Option ast_t))
    (literal_id : token_id) (type t : ast_t)
    (h : typeparam_literal self literal_id type = .ok (some t)) : t = type := by
  unfold typeparam_literal at h
  split at h
  · simp at h
  · split at h
    · simp at h
    · split at h
      · simp at h
      · simp at h
      · simpa using h.symm

/-- A type the resolver returns is never itself a literal placeholder, as
long as `type_builtin` never builds one. -/
theorem is_literal_subtype_not_literal (env : env_t)
    (hb : ∀ (src : ast_t) (name : String),
      is_type_arith_literal (env.type_builtin src name) = false) :
    ∀ (fuel : Nat) (literal_id : token_id) (target t : ast_t),
      is_literal_subtype env fuel literal_id target = .ok (some t) →
      is_type_arith_literal t = false := by
  intro fuel
  induction fuel with
  | zero => intro literal_id target t h; simp [is_literal_subtype] at h
  | succ n ih =>
    intro literal_id target t h
    rw [is_literal_subtype] at h
    split at h
    · simp at h
    · split at h
      · next hid =>
        have := nominal_literal_some env literal_id target t h
        subst this
        simp [is_type_arith_literal, hid]
      · exact structural_literal_loop_inv env literal_id target
          (fun x => is_type_arith_literal x = false) (hb target) order none t
          (by intro x hx; simp at hx) h
      · exact union_literal_loop_inv (is_literal_subtype env n) literal_id
          (fun x => is_type_arith_literal x = false) (ast_children target) none t
          (fun c x _ hx => ih literal_id c x hx) (by intro x hx; simp at hx) h
      · exact isect_literal_loop_inv (is_literal_subtype env n) literal_id
          (fun x => is_type_arith_literal x = false) (ast_children target) none t
          (fun c x _ hx => ih literal_id c x hx) (by intro x hx; simp at hx) h
      · simp at h
      · next hid =>
        have := arrow_literal_some env _ literal_id target t h
        subst this
        simp [is_type_arith_literal, hid]
      · next hid =>
        have := typeparam_literal_some _ literal_id target t h
        subst this
        simp [is_type_arith_literal, hid]
      · simp at h

theorem ast_id_prom_type (t : ast_t) : ast_id (prom_type t) = ast_id t := by
  obtain ⟨id, name, children, ty, data⟩ := t
  unfold prom_type ast_setid_childidx
  cases h : children[3]? <;> simp [h]

theorem is_type_arith_literal_prom_type (t : ast_t) :
    is_type_arith_literal (prom_type t) = is_type_arith_literal t := by
  simp [is_type_arith_literal, ast_id_prom_type]

/-! ## A larger call-depth budget does not change a result -/

theorem union_literal_loop_mono
    (self self1 : token_id → ast_t → Except fault (Option ast_t)) (literal_id : token_id)
    (hself : ∀ c r, self literal_id c = .ok r → self1 literal_id c = .ok r) :
    ∀ (members : List ast_t) (result r : Option ast_t),
      union_literal_loop self literal_id members result = .ok r →
      union_literal_loop self1 literal_id members result = .ok r := by
  intro members
  induction members with
  | nil => intro result r h; simpa [union_literal_loop] using h
  | cons c cs ih =>
    intro result r h
    simp only [union_literal_loop] at h ⊢
    cases hc : self literal_id c with
    | error e => simp [hc] at h
    | ok attempt =>
      simp only [hc] at h
      rw [hself c attempt hc]
      cases hw : wide_literal result attempt with
      | error e => simp [hw] at h
      | ok result1 =>
        simp only [hw] at h ⊢
        exact ih result1 r h

theorem isect_literal_loop_mono
    (self self1 : token_id → ast_t → Except fault (Option ast_t)) (literal_id : token_id)
    (hself : ∀ c r, self literal_id c = .ok r → self1 literal_id c = .ok r) :
    ∀ (members : List ast_t) (result r : Option ast_t),
      isect_literal_loop self literal_id members result = .ok r →
      isect_literal_loop self1 literal_id members result = .ok r := by
  intro members
  induction members with
  | nil => intro result r h; simpa [isect_literal_loop] using h
  | cons c cs ih =>
    intro result r h
    simp only [isect_literal_loop] at h ⊢
    cases hc : self literal_id c with
    | error e => simp [hc] at h
    | ok attempt =>
      simp only [hc] at h
      rw [hself c attempt hc]
      cases hw : narrow_literal result attempt with
      | error e => simp [hw] at h
      | ok result1 =>
        simp only [hw] at h ⊢
        exact ih result1 r h

theorem constraint_literal_loop_mono
    (self self1 : token_id → ast_t → Except fault (Option ast_t)) (literal_id : token_id)
    (hself : ∀ c r, self literal_id c = .ok r → self1 literal_id c = .ok r) :
    ∀ (members : List ast_t) (result r : Option ast_t),
      constraint_literal_loop self literal_id members result = .ok r →
      constraint_literal_loop self1 literal_id members result = .ok r := by
  intro members
  induction members with
  | nil => intro result r h; simpa [constraint_literal_loop] using h
  | cons c cs ih =>
    intro result r h
    simp only [constraint_literal_loop] at h ⊢
    cases hc : self literal_id c with
    | error e => simp [hc] at h
    | ok attempt =>
      rw [hself c attempt hc]
      cases attempt with
      | none => simpa [hc] using h
      | some a =>
        simp only [hc] at h
        cases hw : wide_literal result (some a) with
        | error e => simp [hw] at h
        | ok result1 =>
          simp only [hw] at h ⊢
          exact ih result1 r h

theorem arrow_literal_mono (env : env_t)
    (self self1 : token_id → ast_t → Except fault (Option ast_t)) (literal_id : token_id)
    (hself : ∀ c r, self literal_id c = .ok r → self1 literal_id c = .ok r)
    (type : ast_t) (r : Option ast_t)
    (h : arrow_literal env self literal_id type = .ok r) :
    arrow_literal env self1 literal_id type = .ok r := by
  unfold arrow_literal at h ⊢
  cases hr : ast_childidx type 1 with
  | none => simp [hr] at h
  | some right =>
    simp only [hr] at h ⊢
    cases hs : self literal_id (env.viewpoint_upper right) with
    | error e => simp [hs] at h
    | ok res =>
      rw [hself _ res hs]
      simpa [hs] using h

theorem typeparam_literal_mono
    (self self1 : token_id → ast_t → Except fault (Option ast_t)) (literal_id : token_id)
    (hself : ∀ c r, self literal_id c = .ok r → self1 literal_id c = .ok r)
    (type : ast_t) (r : Option ast_t)
    (h : typeparam_literal self literal_id type = .ok r) :
    typeparam_literal self1 literal_id type = .ok r := by
  unfold typeparam_literal at h ⊢
  cases hd : ast_data type with
  | none => simp [hd] at h
  | some param =>
    simp only [hd] at h ⊢
    cases hc : ast_childidx param 1 with
    | none => simp [hc] at h
    | some constraint =>
      simp only [hc] at h ⊢
      cases hs : self literal_id constraint with
      | error e => simp [hs] at h
      | ok res =>
        rw [hself _ res hs]
        simpa [hs] using h

/-- A result obtained within a call-depth budget is obtained within every
larger one, for the resolver and for the constraint rule. -/
theorem is_literal_subtype_fuel_succ (env : env_t) :
    ∀ (fuel : Nat),
      (∀ literal_id target r, is_literal_subtype env fuel literal_id target = .ok r →
        is_literal_subtype env (fuel + 1) literal_id target = .ok r) ∧
      (∀ literal_id type r, constraint_literal env fuel literal_id type = .ok r →
        constraint_literal env (fuel + 1) literal_id type = .ok r) := by
  intro fuel
  induction fuel with
  | zero =>
    constructor
    · intro literal_id target r h; simp [is_literal_subtype] at h
    · intro literal_id type r h; simp [constraint_literal] at h
  | succ n ih =>
    obtain ⟨ih1, ih2⟩ := ih
    constructor
    · intro literal_id target r h
      rw [is_literal_subtype] at h ⊢
      split at h
      · simp at h
      · next hlit =>
        simp only [hlit, if_false]
        split at h
        · next hid => simpa [hid] using h
        · next hid => simpa [hid] using h
        · next hid =>
          exact union_literal_loop_mono _ _ literal_id (ih1 literal_id) _ none r h
        · next hid =>
          exact isect_literal_loop_mono _ _ literal_id (ih1 literal_id) _ none r h
        · next hid => simpa [hid] using h
        · next hid =>
          exact arrow_literal_mono env _ _ literal_id (ih1 literal_id) target r h
        · next hid =>
          exact typeparam_literal_mono _ _ literal_id (ih2 literal_id) target r h
        · simp at h
    · intro literal_id type r h
      rw [constraint_literal] at h ⊢
      split at h
      · next hid =>
        rw [if_pos hid]
        exact ih1 literal_id type r h
      · next hid =>
        rw [if_neg hid]
        exact constraint_literal_loop_mono _ _ literal_id (ih2 literal_id) _ none r h

theorem is_literal_subtype_fuel_le (env : env_t) (literal_id : token_id)
    (target : ast_t) (r : Option ast_t) :
    ∀ (fuel fuel1 : Nat), fuel ≤ fuel1 →
      is_literal_subtype env fuel literal_id target = .ok r →
      is_literal_subtype env fuel1 literal_id target = .ok r := by
  intro fuel fuel1 hle h
  induction hle with
  | refl => exact h
  | step _ ih => exact (is_literal_subtype_fuel_succ env _).1 literal_id target r ih

/-! ## C5, C6: coercion of a non-tuple expression -/

/-- The non-tuple, placeholder-typed case of `coerce_literals`. -/
theorem coerce_literals_literal (env : env_t) (fuel : Nat) (ast target ty : ast_t)
    (hnt : ast_id ast ≠ TK_TUPLE) (hty : ast_type ast = some ty)
    (hl : is_type_arith_literal ty = true) :
    coerce_literals env fuel ast (some target) =
      match is_literal_subtype env fuel (ast_id ty) target with
      | .error e => .error e
      | .ok none => .ok ⟨false, ast, ["cannot determine type of literal"]⟩
      | .ok (some resolved) =>
        match propogate_coercion (prom_type resolved) ast with
        | .error e => .error e
        | .ok ast1 => .ok ⟨true, ast1, []⟩ := by
  obtain ⟨id, name, children, type, data⟩ := ast
  simp only [ast_id_mk] at hnt
  simp only [ast_type_mk] at hty
  subst hty
  rw [coerce_literals]
  simp only [hnt, if_false, hl, Bool.not_true, Bool.false_eq_true]

/-- C5 (as stated, refuted): after a successful coercion of `(f(1); 2)` to
`I32` the literal below the concretely typed call still holds the placeholder;
after a successful coercion of the tuple `(1, 2)` to `(I32, U8)` the two
literals hold different types and the sequence wrappers still hold the
placeholder. -/
theorem C5_placeholders_left_behind :
    (∃ r, coerce_literals usual_env 1 seq_call_then_literal
          (some (nominal "I32" TK_VAL)) = .ok r ∧ r.ok = true ∧
        (subtree_at r.ast []).bind ast_type = some (nominal "I32" TK_VAL) ∧
        (subtree_at seq_call_then_literal [0, 0]).bind ast_type =
          some (leaf TK_INTLITERAL) ∧
        (subtree_at r.ast [0, 0]).bind ast_type = some (leaf TK_INTLITERAL)) ∧
    (∃ r, coerce_literals usual_env 1 tuple_of_two_literals
          (some (tuple_of [nominal "I32" TK_VAL, nominal "U8" TK_VAL])) = .ok r ∧
        r.ok = true ∧
        (subtree_at r.ast [0, 0]).bind ast_type = some (nominal "I32" TK_VAL) ∧
        (subtree_at r.ast [1, 0]).bind ast_type = some (nominal "U8" TK_VAL) ∧
        (subtree_at tuple_of_two_literals [0]).bind ast_type =
          some (leaf TK_INTLITERAL) ∧
        (subtree_at r.ast [0]).bind ast_type = some (leaf TK_INTLITERAL)) ∧
    nominal "I32" TK_VAL ≠ nominal "U8" TK_VAL ∧
    is_type_arith_literal (leaf TK_INTLITERAL) = true :=
  ⟨⟨_, rfl, rfl, rfl, rfl, rfl⟩, ⟨_, rfl, rfl, rfl, rfl, rfl, rfl⟩,
    nominal_ne_of_name_ne TK_VAL TK_VAL (by decide), rfl⟩

/-- C5 (amended): when `coerce_literals` succeeds on a non-tuple expression
whose type slot holds the placeholder, the expression and every node reached
from it through placeholder-typed nodes only hold one and the same type, the
resolved type with its capability forced to immutable, which is not the
placeholder; every other node of the subtree keeps the type slot it had. -/
theorem C5_coerce_literals_installs_one_type (env : env_t) (fuel : Nat)
    (ast target : ast_t) (r : coerce_result)
    (hb : ∀ (src : ast_t) (name : String),
      is_type_arith_literal (env.type_builtin src name) = false)
    (hnt : ast_id ast ≠ TK_TUPLE) (hlit : has_literal_type ast = true)
    (h : coerce_literals env fuel ast (some target) = .ok r) (hok : r.ok = true) :
    ∃ ty resolved, ast_type ast = some ty ∧
      is_literal_subtype env fuel (ast_id ty) target = .ok (some resolved) ∧
      is_type_arith_literal (prom_type resolved) = false ∧
      ∀ path node, subtree_at ast path = some node →
        ∃ node1, subtree_at r.ast path = some node1 ∧
          ast_type node1 =
            if literal_chain ast path = true then some (prom_type resolved)
            else ast_type node := by
  unfold has_literal_type at hlit
  cases hty : ast_type ast with
  | none => simp [hty] at hlit
  | some ty =>
    simp only [hty] at hlit
    rw [coerce_literals_literal env fuel ast target ty hnt hty hlit] at h
    cases hres : is_literal_subtype env fuel (ast_id ty) target with
    | error e => simp [hres] at h
    | ok res =>
      cases res with
      | none =>
        simp only [hres, Except.ok.injEq] at h
        subst h
        simp at hok
      | some resolved =>
        simp only [hres] at h
        cases hp : propogate_coercion (prom_type resolved) ast with
        | error e => simp [hp] at h
        | ok ast1 =>
          simp only [hp, Except.ok.injEq] at h
          subst h
          refine ⟨ty, resolved, rfl, hres, ?_, ?_⟩
          · rw [is_type_arith_literal_prom_type]
            exact is_literal_subtype_not_literal env hb fuel (ast_id ty) target resolved hres
          · intro path node hn
            exact propogate_coercion_at (prom_type resolved) path ast ast1 hp node hn

theorem C5_coerce_literals_installs_one_type_witness :
    (∀ (src : ast_t) (name : String),
      is_type_arith_literal (usual_env.type_builtin src name) = false) ∧
    ast_id seq_call_then_literal ≠ TK_TUPLE ∧
    has_literal_type seq_call_then_literal = true ∧
    (∃ r, coerce_literals usual_env 1 seq_call_then_literal
        (some (nominal "I32" TK_VAL)) = .ok r ∧ r.ok = true) ∧
    ∃ ty resolved, ast_type seq_call_then_literal = some ty ∧
      is_literal_subtype usual_env 1 (ast_id ty) (nominal "I32" TK_VAL) =
        .ok (some resolved) ∧
      is_type_arith_literal (prom_type resolved) = false ∧
      ∀ path node, subtree_at seq_call_then_literal path = some node →
        ∃ node1,
          subtree_at (.mk TK_SEQ ""
            [.mk (TK_OTHER 2) "" [int_literal] (some (nominal "String" TK_VAL)) none,
             typed_leaf (TK_OTHER 0) (nominal "I32" TK_VAL)]
            (some (nominal "I32" TK_VAL)) none) path = some node1 ∧
          ast_type node1 =
            if literal_chain seq_call_then_literal path = true
            then some (prom_type resolved) else ast_type node :=
  ⟨fun _ _ => rfl, by decide, rfl, ⟨_, rfl, rfl⟩,
    C5_coerce_literals_installs_one_type usual_env 1 seq_call_then_literal
      (nominal "I32" TK_VAL) _ (fun _ _ => rfl) (by decide) rfl rfl rfl⟩

theorem structural_literal_loop_subtype (env : env_t) (literal_id : token_id)
    (type : ast_t) :
    ∀ (names : List String) (result : Option ast_t) (t : ast_t),
      (∀ x, result = some x → env.is_subtype x type = true) →
      structural_literal_loop env literal_id type names result = .ok (some t) →
      env.is_subtype t type = true := by
  intro names
  induction names with
  | nil =>
    intro result t hr h
    simp only [structural_literal_loop, Except.ok.injEq] at h
    exact hr t h
  | cons o os ih =>
    intro result t hr h
    simp only [structural_literal_loop] at h
    cases hn : nominal_literal env literal_id (env.type_builtin type o) with
    | error e => simp [hn] at h
    | ok attempt =>
      cases attempt with
      | none => simp only [hn] at h; exact ih result t hr h
      | some a =>
        simp only [hn] at h
        by_cases hs : env.is_subtype a type = true
        · simp only [hs, if_true] at h
          exact ih (some a) t (by intro x hx; simp at hx; subst hx; exact hs) h
        · simp only [hs, if_false] at h
          exact ih result t hr h

/-- C6 (as stated, refuted): the literal is coerced to `U128` against the
intersection of an unsigned-only and a signed-only bound, and `U128` is not a
subtype of the signed-only member, nor of the intersection. -/
theorem C6_installed_type_not_subtype_of_isect :
    coerce_literals usual_env 2 int_literal
        (some (isect_of [structural_of ["unsigned_only"], structural_of ["signed_only"]])) =
      .ok ⟨true, typed_leaf (TK_OTHER 0) (nominal "U128" TK_VAL), []⟩ ∧
    usual_env.is_subtype (nominal "U128" TK_VAL) (structural_of ["signed_only"]) = false ∧
    usual_env.is_subtype (nominal "U128" TK_VAL)
      (isect_of [structural_of ["unsigned_only"], structural_of ["signed_only"]]) = false :=
  ⟨rfl, rfl, rfl⟩

/-- C6 (amended): when `coerce_literals` succeeds on a non-tuple expression
whose type is the placeholder, the installed type is the resolver's result
with its capability forced to immutable; that result is the target itself for
a Nominal target, passed the subtype predicate against the target for a
Structural target, and is the resolver's result for one of the members for a
Union or Intersection target. -/
theorem C6_installed_type_is_resolved_type (env : env_t) (fuel : Nat)
    (ast target ty : ast_t) (r : coerce_result)
    (hnt : ast_id ast ≠ TK_TUPLE) (hty : ast_type ast = some ty)
    (hl : is_type_arith_literal ty = true)
    (h : coerce_literals env fuel ast (some target) = .ok r) (hok : r.ok = true) :
    ∃ resolved,
      is_literal_subtype env fuel (ast_id ty) target = .ok (some resolved) ∧
      ast_type r.ast = some (prom_type resolved) ∧
      (ast_id target = TK_NOMINAL → resolved = target) ∧
      (ast_id target = TK_STRUCTURAL → env.is_subtype resolved target = true) ∧
      (ast_id target = TK_UNIONTYPE ∨ ast_id target = TK_ISECTTYPE →
        ∃ member ∈ ast_children target,
          is_literal_subtype env (fuel - 1) (ast_id ty) member = .ok (some resolved)) := by
  rw [coerce_literals_literal env fuel ast target ty hnt hty hl] at h
  cases hres : is_literal_subtype env fuel (ast_id ty) target with
  | error e => simp [hres] at h
  | ok res =>
    cases res with
    | none =>
      simp only [hres, Except.ok.injEq] at h
      subst h
      simp at hok
    | some resolved =>
      simp only [hres] at h
      cases hp : propogate_coercion (prom_type resolved) ast with
      | error e => simp [hp] at h
      | ok ast1 =>
        simp only [hp, Except.ok.injEq] at h
        subst h
        have hroot := propogate_coercion_at (prom_type resolved) [] ast ast1 hp ast rfl
        obtain ⟨node1, hn1, ht1⟩ := hroot
        simp only [subtree_at, Option.some.injEq] at hn1
        subst hn1
        have hc : literal_chain ast [] = true := by
          simp [literal_chain, has_literal_type, hty, hl]
        simp only [hc, if_true] at ht1
        refine ⟨resolved, rfl, ht1, ?_, ?_, ?_⟩
        all_goals
          cases fuel with
          | zero => simp [is_literal_subtype] at hres
          | succ n =>
            rw [is_literal_subtype] at hres
            split at hres
            · simp at hres
            · intro hid
              first
              | (simp only [hid] at hres
                 exact nominal_literal_some env _ target resolved hres)
              | (simp only [hid] at hres
                 exact structural_literal_loop_subtype env _ target order none resolved
                   (by intro x hx; simp at hx) hres)
              | (rcases hid with hid | hid
                 · simp only [hid] at hres
                   exact union_literal_loop_inv (is_literal_subtype env n) (ast_id ty)
                     (fun x => ∃ member ∈ ast_children target,
                       is_literal_subtype env n (ast_id ty) member = .ok (some x))
                     (ast_children target) none resolved
                     (fun c x hc hx => ⟨c, hc, hx⟩) (by intro x hx; simp at hx) hres
                 · simp only [hid] at hres
                   exact isect_literal_loop_inv (is_literal_subtype env n) (ast_id ty)
                     (fun x => ∃ member ∈ ast_children target,
                       is_literal_subtype env n (ast_id ty) member = .ok (some x))
                     (ast_children target) none resolved
                     (fun c x hc hx => ⟨c, hc, hx⟩) (by intro x hx; simp at hx) hres)

theorem C6_installed_type_is_resolved_type_witness :
    ast_id int_literal ≠ TK_TUPLE ∧
    ast_type int_literal = some (leaf TK_INTLITERAL) ∧
    is_type_arith_literal (leaf TK_INTLITERAL) = true ∧
    coerce_literals usual_env 2 int_literal (some (structural_of ["signed_only"])) =
      .ok ⟨true, typed_leaf (TK_OTHER 0) (nominal "I128" TK_VAL), []⟩ ∧
    ∃ resolved,
      is_literal_subtype usual_env 2 (ast_id (leaf TK_INTLITERAL))
        (structural_of ["signed_only"]) = .ok (some resolved) ∧
      ast_type (typed_leaf (TK_OTHER 0) (nominal "I128" TK_VAL)) =
        some (prom_type resolved) ∧
      (ast_id (structural_of ["signed_only"]) = TK_NOMINAL →
        resolved = structural_of ["signed_only"]) ∧
      (ast_id (structural_of ["signed_only"]) = TK_STRUCTURAL →
        usual_env.is_subtype resolved (structural_of ["signed_only"]) = true) ∧
      (ast_id (structural_of ["signed_only"]) = TK_UNIONTYPE ∨
          ast_id (structural_of ["signed_only"]) = TK_ISECTTYPE →
        ∃ member ∈ ast_children (structural_of ["signed_only"]),
          is_literal_subtype usual_env (2 - 1) (ast_id (leaf TK_INTLITERAL)) member =
            .ok (some resolved)) :=
  ⟨by decide, rfl, rfl, rfl,
    C6_installed_type_is_resolved_type usual_env 2 int_literal
      (structural_of ["signed_only"]) (leaf TK_INTLITERAL)
      ⟨true, typed_leaf (TK_OTHER 0) (nominal "I128" TK_VAL), []⟩
      (by decide) rfl rfl rfl rfl⟩

/-! ## C7: coercion of a tuple literal -/

theorem propogate_coercion_childless (type : ast_t) (id : token_id) (name : String)
    (ty : ast_t) (data : Option ast_t) (hl : is_type_arith_literal ty = true) :
    propogate_coercion type (.mk id name [] (some ty) data) =
      .ok (.mk id name [] (some type) data) := by
  unfold propogate_coercion
  simp [hl, propogate_coercion_children]

/-- The tuple loop on elements that all resolve. -/
theorem coerce_literals_tuple_resolved (env : env_t) (fuel : Nat) :
    ∀ (seqs targets resolved new_type : List ast_t),
      elements_resolve env fuel seqs targets resolved →
      coerce_literals_tuple env fuel seqs targets new_type =
        .ok ⟨true, List.zipWith seq_with_first_type seqs (resolved.map prom_type),
          new_type ++ resolved.map prom_type, []⟩ := by
  intro seqs
  induction seqs with
  | nil =>
    intro targets resolved new_type h
    cases targets with
    | nil =>
      cases resolved with
      | nil => simp [coerce_literals_tuple]
      | cons r rs => simp [elements_resolve] at h
    | cons t ts => simp [elements_resolve] at h
  | cons seq seqs ih =>
    intro targets resolved new_type h
    cases targets with
    | nil => simp [elements_resolve] at h
    | cons target targets =>
      cases resolved with
      | nil => simp [elements_resolve] at h
      | cons r rs =>
        obtain ⟨⟨hseq, first, others, lit, hch, hnt, hleaf, hty, hl, hres⟩, hrest⟩ := h
        obtain ⟨cid, cname, cchildren, ctype, cdata⟩ := seq
        simp only [ast_id_mk] at hseq
        simp only [ast_children_mk] at hch
        subst hseq
        subst hch
        obtain ⟨fid, fname, fchildren, ftype, fdata⟩ := first
        simp only [ast_children_mk] at hleaf
        simp only [ast_type_mk] at hty
        subst hleaf
        subst hty
        have hfirst : coerce_literals env fuel (.mk fid fname [] (some lit) fdata)
            (some target) =
            .ok ⟨true, .mk fid fname [] (some (prom_type r)) fdata, []⟩ := by
          rw [coerce_literals_literal env fuel _ target lit hnt rfl hl, hres]
          simp only [propogate_coercion_childless (prom_type r) fid fname lit fdata hl]
        rw [coerce_literals_tuple]
        simp only [ne_eq, not_true_eq_false, if_false, hfirst, Bool.not_true,
          Bool.false_eq_true, ast_type_mk]
        rw [ih targets rs (new_type ++ [prom_type r]) hrest]
        simp [seq_with_first_type, ast_settype]

/-- C7 (as stated, refuted): coercing the tuple `(1, 2)` to `(I32 tag, U8)`
succeeds and the resolver returns `I32 tag` for the first element, but the
type installed on it is `I32 val`. -/
theorem C7_element_type_has_forced_capability :
    is_literal_subtype usual_env 1 TK_INTLITERAL (nominal "I32" TK_TAG) =
      .ok (some (nominal "I32" TK_TAG)) ∧
    (∃ r, coerce_literals usual_env 1 tuple_of_two_literals
          (some (tuple_of [nominal "I32" TK_TAG, nominal "U8" TK_VAL])) = .ok r ∧
        r.ok = true ∧
        (subtree_at r.ast [0, 0]).bind ast_type = some (nominal "I32" TK_VAL) ∧
        ast_type r.ast = some (tuple_of [nominal "I32" TK_VAL, nominal "U8" TK_VAL])) ∧
    nominal "I32" TK_VAL ≠ nominal "I32" TK_TAG := by
  refine ⟨rfl, ⟨_, rfl, rfl, rfl, rfl⟩, ?_⟩
  intro h
  simp [nominal, leaf] at h

/-- C7 (amended): for a typed tuple literal whose elements are placeholder-typed
literals and a Tuple target of the same arity whose element types all resolve,
`coerce_literals` succeeds, the i-th element's type becomes the i-th resolved
type with its capability forced to immutable, and the tuple's own type becomes
the Tuple of those element types in the same order. -/
theorem C7_coerce_literals_tuple (env : env_t) (fuel : Nat) (name : String)
    (seqs resolved : List ast_t) (old_type target : ast_t) (data : Option ast_t)
    (htarget : ast_id target = TK_TUPLETYPE)
    (h : elements_resolve env fuel seqs (ast_children target) resolved) :
    coerce_literals env fuel (.mk TK_TUPLE name seqs (some old_type) data) (some target) =
      .ok ⟨true,
        .mk TK_TUPLE name
          (List.zipWith seq_with_first_type seqs (resolved.map prom_type))
          (some (tuple_of (resolved.map prom_type))) data,
        []⟩ := by
  rw [coerce_literals]
  simp only [if_true, htarget, ne_eq, not_true_eq_false, if_false]
  rw [coerce_literals_tuple_resolved env fuel seqs (ast_children target) resolved [] h]
  simp [tuple_of]

theorem C7_coerce_literals_tuple_witness :
    ast_id (tuple_of [nominal "I32" TK_VAL, nominal "U8" TK_VAL]) = TK_TUPLETYPE ∧
    elements_resolve usual_env 1
      [.mk TK_SEQ "" [int_literal] (some (leaf TK_INTLITERAL)) none,
       .mk TK_SEQ "" [int_literal] (some (leaf TK_INTLITERAL)) none]
      (ast_children (tuple_of [nominal "I32" TK_VAL, nominal "U8" TK_VAL]))
      [nominal "I32" TK_VAL, nominal "U8" TK_VAL] ∧
    coerce_literals usual_env 1 tuple_of_two_literals
        (some (tuple_of [nominal "I32" TK_VAL, nominal "U8" TK_VAL])) =
      .ok ⟨true,
        .mk TK_TUPLE ""
          [.mk TK_SEQ "" [typed_leaf (TK_OTHER 0) (nominal "I32" TK_VAL)]
             (some (leaf TK_INTLITERAL)) none,
           .mk TK_SEQ "" [typed_leaf (TK_OTHER 0) (nominal "U8" TK_VAL)]
             (some (leaf TK_INTLITERAL)) none]
          (some (tuple_of [nominal "I32" TK_VAL, nominal "U8" TK_VAL])) none,
        []⟩ :=
  have hres : elements_resolve usual_env 1
      [.mk TK_SEQ "" [int_literal] (some (leaf TK_INTLITERAL)) none,
       .mk TK_SEQ "" [int_literal] (some (leaf TK_INTLITERAL)) none]
      (ast_children (tuple_of [nominal "I32" TK_VAL, nominal "U8" TK_VAL]))
      [nominal "I32" TK_VAL, nominal "U8" TK_VAL] :=
    ⟨⟨rfl, int_literal, [], leaf TK_INTLITERAL, rfl, by decide, rfl, rfl, rfl, rfl⟩,
      ⟨rfl, int_literal, [], leaf TK_INTLITERAL, rfl, by decide, rfl, rfl, rfl, rfl⟩,
      trivial⟩
  ⟨rfl, hres,
    C7_coerce_literals_tuple usual_env 1 ""
      [.mk TK_SEQ "" [int_literal] (some (leaf TK_INTLITERAL)) none,
       .mk TK_SEQ "" [int_literal] (some (leaf TK_INTLITERAL)) none]
      [nominal "I32" TK_VAL, nominal "U8" TK_VAL]
      (tuple_of [leaf TK_INTLITERAL, leaf TK_INTLITERAL])
      (tuple_of [nominal "I32" TK_VAL, nominal "U8" TK_VAL]) none rfl hres⟩

/-! ## C8: coercing an expression that is already coerced -/

/-- The non-tuple case of `coerce_literals` on a type slot that does not hold
the placeholder. -/
theorem coerce_literals_concrete (env : env_t) (fuel : Nat) (ast target : ast_t)
    (hnt : ast_id ast ≠ TK_TUPLE) (hl : has_literal_type ast = false) :
    coerce_literals env fuel ast (some target) = .ok ⟨true, ast, []⟩ := by
  obtain ⟨id, name, children, type, data⟩ := ast
  simp only [ast_id_mk] at hnt
  cases type with
  | none =>
    rw [coerce_literals]
    simp only [hnt, if_false]
  | some ty =>
    simp only [has_literal_type, ast_type_mk] at hl
    rw [coerce_literals]
    simp [hnt, hl]

theorem propogate_coercion_root (type ast ast1 ty : ast_t)
    (hty : ast_type ast = some ty) (hl : is_type_arith_literal ty = true)
    (h : propogate_coercion type ast = .ok ast1) :
    ast_id ast1 = ast_id ast ∧ ast_type ast1 = some type := by
  obtain ⟨id, name, children, t, data⟩ := ast
  simp only [ast_type_mk] at hty
  subst hty
  unfold propogate_coercion at h
  simp only [hl, Bool.not_true, Bool.false_eq_true, if_false] at h
  cases hc : propogate_coercion_children type children with
  | error e => simp [hc] at h
  | ok cs =>
    simp only [hc, Except.ok.injEq] at h
    subst h
    simp

mutual
theorem coerce_literals_again (env : env_t) (fuel : Nat)
    (hb : ∀ (src : ast_t) (name : String),
      is_type_arith_literal (env.type_builtin src name) = false) :
    ∀ (ast target : ast_t) (r : coerce_result),
      coerce_literals env fuel ast (some target) = .ok r → r.ok = true →
      coerce_literals env fuel r.ast (some target) = .ok ⟨true, r.ast, []⟩
  | .mk id name children type data, target, r, h, hok => by
    by_cases hid : id = TK_TUPLE
    · by_cases ht : ast_id target = TK_TUPLETYPE
      · cases type with
        | none =>
          rw [coerce_literals] at h
          simp [hid, ht] at h
        | some ty =>
          rw [coerce_literals] at h
          simp only [hid, if_true, ht, ne_eq, not_true_eq_false, if_false] at h
          cases hloop : coerce_literals_tuple env fuel children (ast_children target) [] with
          | error e => simp [hloop] at h
          | ok r1 =>
            simp only [hloop] at h
            by_cases hr1 : r1.ok = true
            · simp only [hr1, if_true, Except.ok.injEq] at h
              subst h
              obtain ⟨tys, htys, hagain⟩ :=
                coerce_literals_tuple_again env fuel hb children (ast_children target)
                  [] r1 hloop hr1
              rw [coerce_literals]
              simp only [if_true, ht, ne_eq, not_true_eq_false, if_false, hagain []]
              simp at htys
              simp [htys]
            · simp only [Bool.not_eq_true] at hr1
              simp only [hr1, Bool.false_eq_true, if_false, Except.ok.injEq] at h
              subst h
              simp at hok
      · cases type with
        | none =>
          rw [coerce_literals] at h
          simp [hid, ht] at h
        | some ty =>
          rw [coerce_literals] at h
          simp [hid, ht] at h
    · by_cases hl : has_literal_type (.mk id name children type data) = true
      · unfold has_literal_type at hl
        cases type with
        | none => simp at hl
        | some ty =>
          simp only [ast_type_mk] at hl
          rw [coerce_literals_literal env fuel (.mk id name children (some ty) data) target
            ty hid rfl hl] at h
          cases hres : is_literal_subtype env fuel (ast_id ty) target with
          | error e => simp [hres] at h
          | ok res =>
            cases res with
            | none =>
              simp only [hres, Except.ok.injEq] at h
              subst h
              simp at hok
            | some resolved =>
              simp only [hres] at h
              cases hp : propogate_coercion (prom_type resolved)
                  (.mk id name children (some ty) data) with
              | error e => simp [hp] at h
              | ok ast1 =>
                simp only [hp, Except.ok.injEq] at h
                subst h
                obtain ⟨h1, h2⟩ := propogate_coercion_root (prom_type resolved)
                  (.mk id name children (some ty) data) ast1 ty rfl hl hp
                apply coerce_literals_concrete
                · rw [h1]; exact hid
                · simp only [has_literal_type, h2]
                  rw [is_type_arith_literal_prom_type]
                  exact is_literal_subtype_not_literal env hb fuel (ast_id ty) target
                    resolved hres
      · simp only [Bool.not_eq_true] at hl
        have := coerce_literals_concrete env fuel (.mk id name children type data) target
          hid hl
        rw [this] at h
        simp only [Except.ok.injEq] at h
        subst h
        exact this
theorem coerce_literals_tuple_again (env : env_t) (fuel : Nat)
    (hb : ∀ (src : ast_t) (name : String),
      is_type_arith_literal (env.type_builtin src name) = false) :
    ∀ (seqs targets new_type : List ast_t) (r : coerce_tuple_result),
      coerce_literals_tuple env fuel seqs targets new_type = .ok r → r.ok = true →
      ∃ tys, r.new_type = new_type ++ tys ∧
        ∀ new_type1, coerce_literals_tuple env fuel r.children targets new_type1 =
          .ok ⟨true, r.children, new_type1 ++ tys, []⟩
  | [], [], new_type, r, h, _ => by
    simp only [coerce_literals_tuple, Except.ok.injEq] at h
    subst h
    exact ⟨[], by simp, by intro n; simp [coerce_literals_tuple]⟩
  | [], _ :: _, _, r, h, _ => by simp [coerce_literals_tuple] at h
  | _ :: _, [], _, r, h, _ => by simp [coerce_literals_tuple] at h
  | .mk cid cname [] ctype cdata :: rest, target :: targets, new_type, r, h, _ => by
    rw [coerce_literals_tuple] at h
    by_cases hc : cid = TK_SEQ <;> simp [hc] at h
  | .mk cid cname (first :: others) ctype cdata :: rest, target :: targets, new_type,
      r, h, hok => by
    rw [coerce_literals_tuple] at h
    by_cases hc : cid = TK_SEQ
    · simp only [hc, ne_eq, not_true_eq_false, if_false] at h
      cases hf : coerce_literals env fuel first (some target) with
      | error e => simp [hf] at h
      | ok r1 =>
        simp only [hf] at h
        by_cases hr1 : r1.ok = true
        · simp only [hr1, Bool.not_true, Bool.false_eq_true, if_false] at h
          cases het : ast_type r1.ast with
          | none => simp [het] at h
          | some et =>
            simp only [het] at h
            cases hrest : coerce_literals_tuple env fuel rest targets (new_type ++ [et]) with
            | error e => simp [hrest] at h
            | ok r2 =>
              simp only [hrest, Except.ok.injEq] at h
              subst h
              simp only at hok
              have h1 := coerce_literals_again env fuel hb first target r1 hf hr1
              obtain ⟨tys2, htys2, hagain2⟩ :=
                coerce_literals_tuple_again env fuel hb rest targets (new_type ++ [et])
                  r2 hrest hok
              refine ⟨et :: tys2, by simp [htys2], ?_⟩
              intro n
              rw [coerce_literals_tuple]
              simp only [ne_eq, not_true_eq_false, if_false, h1, Bool.not_true,
                Bool.false_eq_true, het, hagain2 (n ++ [et])]
              simp
        · simp only [Bool.not_eq_true] at hr1
          simp only [hr1, Bool.not_false, if_true, Except.ok.injEq] at h
          subst h
          simp at hok
    · simp [hc] at h
end

/-- With a present target, `coerce_literals` on a non-tuple expression whose
type slot does not hold the placeholder returns success and leaves the tree as
it was; and on every expression, tuple literals included, a second coercion
against the same target after a successful first one returns success and
leaves the tree as the first one left it. -/
theorem coerce_literals_settled (env : env_t) (fuel : Nat)
    (hb : ∀ (src : ast_t) (name : String),
      is_type_arith_literal (env.type_builtin src name) = false)
    (ast target : ast_t) :
    (ast_id ast ≠ TK_TUPLE → has_literal_type ast = false →
      coerce_literals env fuel ast (some target) = .ok ⟨true, ast, []⟩) ∧
    (∀ r, coerce_literals env fuel ast (some target) = .ok r → r.ok = true →
      coerce_literals env fuel r.ast (some target) = .ok ⟨true, r.ast, []⟩) :=
  ⟨coerce_literals_concrete env fuel ast target,
    coerce_literals_again env fuel hb ast target⟩

theorem coerce_literals_settled_on_tuple :
    (∃ r, coerce_literals usual_env 1 tuple_of_two_literals
          (some (tuple_of [nominal "I32" TK_VAL, nominal "U8" TK_VAL])) = .ok r ∧
        r.ok = true ∧
        coerce_literals usual_env 1 r.ast
          (some (tuple_of [nominal "I32" TK_VAL, nominal "U8" TK_VAL])) =
            .ok ⟨true, r.ast, []⟩) ∧
    coerce_literals usual_env 1 (typed_leaf (TK_OTHER 0) (nominal "I32" TK_VAL))
        (some (nominal "U8" TK_VAL)) =
      .ok ⟨true, typed_leaf (TK_OTHER 0) (nominal "I32" TK_VAL), []⟩ :=
  have h := coerce_literals_settled usual_env 1 (fun _ _ => rfl)
  ⟨⟨_, rfl, rfl,
      (h tuple_of_two_literals (tuple_of [nominal "I32" TK_VAL, nominal "U8" TK_VAL])).2
        _ rfl rfl⟩,
    (h (typed_leaf (TK_OTHER 0) (nominal "I32" TK_VAL)) (nominal "U8" TK_VAL)).1
      (by decide) rfl⟩

/-- The tuple loop on elements whose first expressions are all concrete:
nothing changes and the collected types are the first expressions' types. -/
theorem coerce_literals_tuple_concrete (env : env_t) (fuel : Nat) :
    ∀ (seqs types targets new_type : List ast_t),
      elements_concrete seqs types → targets.length = seqs.length →
      coerce_literals_tuple env fuel seqs targets new_type =
        .ok ⟨true, seqs, new_type ++ types, []⟩ := by
  intro seqs
  induction seqs with
  | nil =>
    intro types targets new_type h hlen
    cases types with
    | nil =>
      cases targets with
      | nil => simp [coerce_literals_tuple]
      | cons t ts => simp at hlen
    | cons t ts => simp [elements_concrete] at h
  | cons seq seqs ih =>
    intro types targets new_type h hlen
    cases types with
    | nil => simp [elements_concrete] at h
    | cons type types =>
      cases targets with
      | nil => simp at hlen
      | cons target targets =>
        obtain ⟨⟨hseq, first, others, hch, hnt, hty, hl⟩, hrest⟩ := h
        obtain ⟨cid, cname, cchildren, ctype, cdata⟩ := seq
        simp only [ast_id_mk] at hseq
        simp only [ast_children_mk] at hch
        subst hseq
        subst hch
        have hfirst : coerce_literals env fuel first (some target) =
            .ok ⟨true, first, []⟩ :=
          coerce_literals_concrete env fuel first target hnt
            (by simp [has_literal_type, hty, hl])
        have hlen1 : targets.length = seqs.length := by simpa using hlen
        rw [coerce_literals_tuple]
        simp only [ne_eq, not_true_eq_false, if_false, hfirst, Bool.not_true,
          Bool.false_eq_true, hty]
        rw [ih types targets (new_type ++ [type]) hrest hlen1]
        simp

/-- Where the two typings of a tuple agree nothing changes: a tuple literal
whose type is the tuple of its elements' first-expression types, all concrete,
is left as it was by a coercion against a Tuple target of the same arity. -/
theorem coerce_literals_concrete_tuple_unchanged (env : env_t) (fuel : Nat)
    (name : String) (seqs types : List ast_t) (target : ast_t) (data : Option ast_t)
    (htarget : ast_id target = TK_TUPLETYPE)
    (harity : (ast_children target).length = seqs.length)
    (h : elements_concrete seqs types) :
    coerce_literals env fuel (.mk TK_TUPLE name seqs (some (tuple_of types)) data)
        (some target) =
      .ok ⟨true, .mk TK_TUPLE name seqs (some (tuple_of types)) data, []⟩ := by
  rw [coerce_literals]
  simp only [if_true, htarget, ne_eq, not_true_eq_false, if_false]
  rw [coerce_literals_tuple_concrete env fuel seqs types (ast_children target) [] h harity]
  simp [tuple_of]

/-- C8 (the code departs from the claim): `expr_tuple` types the tuple
`((f(); 3), 4)` as `(U8, U8)`, from the types of its sequence elements, and
the tuple holds no placeholder; coercing it to `(U8, U8)` returns success but
replaces its type by `(String, U8)`, which `coerce_literals` rebuilds from the
first expression of each element. -/
theorem C8_concrete_tuple_type_is_rebuilt :
    expr_tuple (.mk TK_TUPLE "" (ast_children tuple_with_sequence_element) none none) =
      .ok ⟨true, tuple_with_sequence_element, []⟩ ∧
    has_literal_type tuple_with_sequence_element = false ∧
    ast_type tuple_with_sequence_element =
      some (tuple_of [nominal "U8" TK_VAL, nominal "U8" TK_VAL]) ∧
    (∃ r, coerce_literals usual_env 1 tuple_with_sequence_element
          (some (tuple_of [nominal "U8" TK_VAL, nominal "U8" TK_VAL])) = .ok r ∧
        r.ok = true ∧
        ast_children r.ast = ast_children tuple_with_sequence_element ∧
        ast_type r.ast = some (tuple_of [nominal "String" TK_VAL, nominal "U8" TK_VAL])) ∧
    tuple_of [nominal "String" TK_VAL, nominal "U8" TK_VAL] ≠
      tuple_of [nominal "U8" TK_VAL, nominal "U8" TK_VAL] := by
  refine ⟨rfl, rfl, rfl, ⟨_, rfl, rfl, rfl, rfl⟩, ?_⟩
  intro h
  simp [tuple_of, nominal, ident] at h

/-! ## C9: the one failure of a non-tuple coercion -/

/-- C9: for a non-tuple expression whose type is the placeholder and a present
target, `coerce_literals` returns failure exactly when the resolver returns no
fit for the literal's kind and the target; it then leaves the tree as it was
and reports `cannot determine type of literal`. -/
theorem C9_coerce_literals_fails_iff_no_fit (env : env_t) (fuel : Nat)
    (ast target ty : ast_t)
    (hnt : ast_id ast ≠ TK_TUPLE) (hty : ast_type ast = some ty)
    (hl : is_type_arith_literal ty = true) :
    ((∃ r, coerce_literals env fuel ast (some target) = .ok r ∧ r.ok = false) ↔
      is_literal_subtype env fuel (ast_id ty) target = .ok none) ∧
    (is_literal_subtype env fuel (ast_id ty) target = .ok none →
      coerce_literals env fuel ast (some target) =
        .ok ⟨false, ast, ["cannot determine type of literal"]⟩) := by
  rw [coerce_literals_literal env fuel ast target ty hnt hty hl]
  cases hres : is_literal_subtype env fuel (ast_id ty) target with
  | error e => simp
  | ok res =>
    cases res with
    | none => simp
    | some resolved =>
      cases hp : propogate_coercion (prom_type resolved) ast with
      | error e => simp [hp]
      | ok ast1 =>
        simp only [hp, Except.ok.injEq, reduceCtorEq, imp_false, not_false_eq_true,
          and_true, iff_false, not_exists, not_and, Bool.not_eq_false]
        refine ⟨?_, fun hf => hf.elim⟩
        intro x hx
        subst hx
        rfl

theorem C9_coerce_literals_fails_iff_no_fit_witness :
    ast_id float_literal ≠ TK_TUPLE ∧
    ast_type float_literal = some (leaf TK_FLOATLITERAL) ∧
    is_type_arith_literal (leaf TK_FLOATLITERAL) = true ∧
    nominal_check usual_env (nominal "U8" TK_VAL) "Float" = false ∧
    is_literal_subtype usual_env 1 (ast_id (leaf TK_FLOATLITERAL)) (nominal "U8" TK_VAL) =
      .ok none ∧
    coerce_literals usual_env 1 float_literal (some (nominal "U8" TK_VAL)) =
      .ok ⟨false, float_literal, ["cannot determine type of literal"]⟩ :=
  ⟨by decide, rfl, rfl, rfl, rfl,
    (C9_coerce_literals_fails_iff_no_fit usual_env 1 float_literal (nominal "U8" TK_VAL)
      (leaf TK_FLOATLITERAL) (by decide) rfl rfl).2 rfl⟩

/-! ## C10: the combinators and the order of their arguments -/

/-- C10 (as stated, refuted): for two different candidates of the same rank,
whether two nominals naming `U8` with different capabilities or two arrow
types, each combinator returns its first argument, so swapping the arguments
changes the result. -/
theorem C10_combinators_not_commutative_on_ties :
    index_literal (nominal "U8" TK_VAL) = index_literal (nominal "U8" TK_TAG) ∧
    wide_literal (some (nominal "U8" TK_VAL)) (some (nominal "U8" TK_TAG)) =
      .ok (some (nominal "U8" TK_VAL)) ∧
    wide_literal (some (nominal "U8" TK_TAG)) (some (nominal "U8" TK_VAL)) =
      .ok (some (nominal "U8" TK_TAG)) ∧
    narrow_literal (some (nominal "U8" TK_VAL)) (some (nominal "U8" TK_TAG)) =
      .ok (some (nominal "U8" TK_VAL)) ∧
    narrow_literal (some (nominal "U8" TK_TAG)) (some (nominal "U8" TK_VAL)) =
      .ok (some (nominal "U8" TK_TAG)) ∧
    nominal "U8" TK_VAL ≠ nominal "U8" TK_TAG ∧
    wide_literal (some (.mk TK_ARROW "" [leaf TK_BOX, nominal "U8" TK_VAL] none none))
        (some (.mk TK_ARROW "" [leaf TK_BOX, nominal "I8" TK_VAL] none none)) ≠
      wide_literal (some (.mk TK_ARROW "" [leaf TK_BOX, nominal "I8" TK_VAL] none none))
        (some (.mk TK_ARROW "" [leaf TK_BOX, nominal "U8" TK_VAL] none none)) := by
  refine ⟨rfl, rfl, rfl, rfl, rfl, ?_, ?_⟩
  · intro h
    simp [nominal, leaf] at h
  · have e1 : wide_literal
        (some (.mk TK_ARROW "" [leaf TK_BOX, nominal "U8" TK_VAL] none none))
        (some (.mk TK_ARROW "" [leaf TK_BOX, nominal "I8" TK_VAL] none none)) =
        .ok (some (.mk TK_ARROW "" [leaf TK_BOX, nominal "U8" TK_VAL] none none)) := rfl
    have e2 : wide_literal
        (some (.mk TK_ARROW "" [leaf TK_BOX, nominal "I8" TK_VAL] none none))
        (some (.mk TK_ARROW "" [leaf TK_BOX, nominal "U8" TK_VAL] none none)) =
        .ok (some (.mk TK_ARROW "" [leaf TK_BOX, nominal "I8" TK_VAL] none none)) := rfl
    rw [e1, e2]
    intro h
    simp [nominal, ident] at h

/-- C10 (amended): `wide_literal` and `narrow_literal` give the same result in
either argument order whenever one candidate is absent, the two candidates are
the same value, or their ranks differ; for two candidates of the same rank
each combinator returns its first argument. -/
theorem C10_combinators_commute_off_ties (a b : Option ast_t)
    (h : a = none ∨ b = none ∨ a = b ∨
      ∃ x y i j, a = some x ∧ b = some y ∧
        index_literal x = .ok i ∧ index_literal y = .ok j ∧ i ≠ j) :
    wide_literal a b = wide_literal b a ∧ narrow_literal a b = narrow_literal b a ∧
    (∀ x y i, index_literal x = .ok i → index_literal y = .ok i →
      wide_literal (some x) (some y) = .ok (some x) ∧
      narrow_literal (some x) (some y) = .ok (some x)) := by
  refine ⟨?_, ?_, ?_⟩
  · rcases h with h | h | h | ⟨x, y, i, j, ha, hb, hx, hy, hij⟩
    · subst h; cases b <;> simp [wide_literal]
    · subst h; cases a <;> simp [wide_literal]
    · subst h; rfl
    · subst ha; subst hb
      simp only [wide_literal, hx, hy]
      by_cases hlt : i ≥ j
      · have : ¬ j ≥ i := by omega
        simp [hlt, this]
      · have : j ≥ i := by omega
        simp [hlt, this]
  · rcases h with h | h | h | ⟨x, y, i, j, ha, hb, hx, hy, hij⟩
    · subst h; cases b <;> simp [narrow_literal]
    · subst h; cases a <;> simp [narrow_literal]
    · subst h; rfl
    · subst ha; subst hb
      simp only [narrow_literal, hx, hy]
      by_cases hlt : i ≤ j
      · have : ¬ j ≤ i := by omega
        simp [hlt, this]
      · have : j ≤ i := by omega
        simp [hlt, this]
  · intro x y i hx hy
    simp [wide_literal, narrow_literal, hx, hy]

theorem C10_combinators_commute_off_ties_witness :
    (index_literal (nominal "U8" TK_VAL) = .ok 0 ∧
      index_literal (nominal "I32" TK_VAL) = .ok 5) ∧
    wide_literal (some (nominal "U8" TK_VAL)) (some (nominal "I32" TK_VAL)) =
      wide_literal (some (nominal "I32" TK_VAL)) (some (nominal "U8" TK_VAL)) ∧
    narrow_literal (some (nominal "U8" TK_VAL)) (some (nominal "I32" TK_VAL)) =
      narrow_literal (some (nominal "I32" TK_VAL)) (some (nominal "U8" TK_VAL)) :=
  have h := C10_combinators_commute_off_ties (some (nominal "U8" TK_VAL))
    (some (nominal "I32" TK_VAL))
    (Or.inr (Or.inr (Or.inr ⟨_, _, 0, 5, rfl, rfl, rfl, rfl, by decide⟩)))
  ⟨⟨rfl, rfl⟩, h.1, h.2.1⟩

/-! ## C11, C12: identity element, choice by rank, and the rank table -/

/-- C11: `None` is a two-sided identity of `wide_literal` and of
`narrow_literal`, and for two candidates of different rank `wide_literal`
returns the one of larger rank and `narrow_literal` the one of smaller
rank. -/
theorem C11_none_identity_and_choice_by_rank (a : Option ast_t) (x y : ast_t)
    (i j : Nat) (hx : index_literal x = .ok i) (hy : index_literal y = .ok j)
    (hij : i ≠ j) :
    wide_literal a none = .ok a ∧ wide_literal none a = .ok a ∧
    narrow_literal a none = .ok a ∧ narrow_literal none a = .ok a ∧
    wide_literal (some x) (some y) = .ok (some (if i > j then x else y)) ∧
    narrow_literal (some x) (some y) = .ok (some (if i < j then x else y)) := by
  refine ⟨?_, ?_, ?_, ?_, ?_, ?_⟩
  · cases a <;> simp [wide_literal]
  · simp [wide_literal]
  · cases a <;> simp [narrow_literal]
  · simp [narrow_literal]
  · simp only [wide_literal, hx, hy]
    by_cases h : i ≥ j
    · have h1 : i > j := by omega
      simp [h, h1]
    · have h1 : ¬ i > j := by omega
      simp [h, h1]
  · simp only [narrow_literal, hx, hy]
    by_cases h : i ≤ j
    · have h1 : i < j := by omega
      simp [h, h1]
    · have h1 : ¬ i < j := by omega
      simp [h, h1]

theorem C11_none_identity_and_choice_by_rank_witness :
    index_literal (nominal "I32" TK_VAL) = .ok 5 ∧
    index_literal (nominal "U64" TK_VAL) = .ok 6 ∧
    wide_literal (some (nominal "I32" TK_VAL)) (some (nominal "U64" TK_VAL)) =
      .ok (some (nominal "U64" TK_VAL)) ∧
    narrow_literal (some (nominal "I32" TK_VAL)) (some (nominal "U64" TK_VAL)) =
      .ok (some (nominal "I32" TK_VAL)) ∧
    wide_literal (some (nominal "F32" TK_VAL)) none = .ok (some (nominal "F32" TK_VAL)) :=
  have h := C11_none_identity_and_choice_by_rank (some (nominal "F32" TK_VAL))
    (nominal "I32" TK_VAL) (nominal "U64" TK_VAL) 5 6 rfl rfl (by decide)
  ⟨rfl, rfl, h.2.2.2.2.1, h.2.2.2.2.2, h.1⟩

theorem index_literal_loop_get (name : String) :
    ∀ (names : List String) (k i : Nat), index_literal_loop name names k = .ok i →
      k ≤ i ∧ names[i - k]? = some name := by
  intro names
  induction names with
  | nil => intro k i h; simp [index_literal_loop] at h
  | cons o os ih =>
    intro k i h
    simp only [index_literal_loop] at h
    by_cases ho : o = name
    · simp only [ho, if_true, Except.ok.injEq] at h
      subst h
      simp [ho]
    · simp only [ho, if_false] at h
      obtain ⟨h1, h2⟩ := ih (k + 1) i h
      refine ⟨by omega, ?_⟩
      have : i - k = (i - (k + 1)) + 1 := by omega
      rw [this]
      simpa using h2

theorem nominal_rank_injective (n m : String) (c d : token_id) (i : Nat)
    (hn : index_literal (nominal n c) = .ok i) (hm : index_literal (nominal m d) = .ok i) :
    n = m := by
  rw [index_literal_nominal] at hn hm
  have h1 := (index_literal_loop_get n order 0 i hn).2
  have h2 := (index_literal_loop_get m order 0 i hm).2
  rw [h1] at h2
  simpa using h2

theorem index_literal_of_mem_order (n : String) (c : token_id) (hn : n ∈ order) :
    ∃ i, i < 12 ∧ index_literal (nominal n c) = .ok i ∧ order[i]? = some n := by
  simp only [order, List.mem_cons, List.mem_singleton, List.not_mem_nil, or_false] at hn
  rcases hn with h | h | h | h | h | h | h | h | h | h | h | h <;> subst h
  · exact ⟨0, by omega, rfl, rfl⟩
  · exact ⟨1, by omega, rfl, rfl⟩
  · exact ⟨2, by omega, rfl, rfl⟩
  · exact ⟨3, by omega, rfl, rfl⟩
  · exact ⟨4, by omega, rfl, rfl⟩
  · exact ⟨5, by omega, rfl, rfl⟩
  · exact ⟨6, by omega, rfl, rfl⟩
  · exact ⟨7, by omega, rfl, rfl⟩
  · exact ⟨8, by omega, rfl, rfl⟩
  · exact ⟨9, by omega, rfl, rfl⟩
  · exact ⟨10, by omega, rfl, rfl⟩
  · exact ⟨11, by omega, rfl, rfl⟩

/-- C12: `index_literal` maps the twelve names of the table, in the order U8,
I8, U16, I16, U32, I32, U64, I64, U128, I128, F32, F64, to the positions 0 to
11; two table entries of the same rank are the same entry; and the induced
comparison is irreflexive, transitive and total on the table. -/
theorem C12_index_literal_is_table_position :
    order = ["U8", "I8", "U16", "I16", "U32", "I32", "U64", "I64",
      "U128", "I128", "F32", "F64"] ∧
    (∀ cap, order.map (fun n => index_literal (nominal n cap)) =
      [.ok 0, .ok 1, .ok 2, .ok 3, .ok 4, .ok 5, .ok 6, .ok 7, .ok 8, .ok 9,
       .ok 10, .ok 11]) ∧
    (∀ n m c d i, n ∈ order → m ∈ order →
      index_literal (nominal n c) = .ok i → index_literal (nominal m d) = .ok i →
      n = m) ∧
    (∀ a, ¬ rank_lt a a) ∧
    (∀ a b c, rank_lt a b → rank_lt b c → rank_lt a c) ∧
    (∀ n m c d, n ∈ order → m ∈ order →
      rank_lt (nominal n c) (nominal m d) ∨ n = m ∨
      rank_lt (nominal m d) (nominal n c)) := by
  refine ⟨rfl, fun cap => rfl, ?_, ?_, ?_, ?_⟩
  · intro n m c d i _ _ hn hm
    exact nominal_rank_injective n m c d i hn hm
  · rintro a ⟨i, j, hi, hj, hlt⟩
    rw [hi] at hj
    simp only [Except.ok.injEq] at hj
    omega
  · rintro a b c ⟨i, j, hi, hj, hlt⟩ ⟨j1, k, hj1, hk, hlt1⟩
    rw [hj] at hj1
    simp only [Except.ok.injEq] at hj1
    exact ⟨i, k, hi, hk, by omega⟩
  · intro n m c d hn hm
    obtain ⟨i, _, hi, _⟩ := index_literal_of_mem_order n c hn
    obtain ⟨j, _, hj, _⟩ := index_literal_of_mem_order m d hm
    rcases Nat.lt_trichotomy i j with h | h | h
    · exact Or.inl ⟨i, j, hi, hj, h⟩
    · subst h
      exact Or.inr (Or.inl (nominal_rank_injective n m c d i hi hj))
    · exact Or.inr (Or.inr ⟨j, i, hj, hi, h⟩)

/-! ## C13: structural targets -/

theorem index_literal_loop_append_mem (name : String) (rest : List String) :
    ∀ (pre : List String) (k : Nat), name ∈ pre →
      ∃ i, index_literal_loop name (pre ++ rest) k = .ok i ∧ i < k + pre.length := by
  intro pre
  induction pre with
  | nil => intro k h; simp at h
  | cons o os ih =>
    intro k h
    simp only [List.cons_append, index_literal_loop]
    by_cases ho : o = name
    · exact ⟨k, by simp [ho], by simp⟩
    · have hmem : name ∈ os := by
        rcases List.mem_cons.mp h with h1 | h1
        · exact absurd h1.symm ho
        · exact h1
      obtain ⟨i, hi, hlt⟩ := ih (k + 1) hmem
      exact ⟨i, by simp [ho, hi], by simp only [List.length_cons]; omega⟩

theorem index_literal_loop_append_not_mem (name : String) (rest : List String) :
    ∀ (pre : List String) (k : Nat), name ∉ pre →
      index_literal_loop name (pre ++ rest) k =
        index_literal_loop name rest (k + pre.length) := by
  intro pre
  induction pre with
  | nil => intro k _; simp
  | cons o os ih =>
    intro k h
    have ho : o ≠ name := fun e => h (by simp [e])
    have hos : name ∉ os := fun e => h (List.mem_cons_of_mem _ e)
    rw [List.cons_append, index_literal_loop, if_neg ho, ih (k + 1) hos, List.length_cons]
    congr 1
    omega

/-- What the loop of `structural_literal` returns when no table entry makes
`nominal_literal` stop: the incoming result if no remaining entry is kept,
otherwise the builtin type of the last entry that is kept. -/
theorem structural_literal_loop_spec (env : env_t) (literal_id : token_id) (type : ast_t) :
    ∀ (names : List String) (result : Option ast_t),
      (∀ o ∈ names, ∃ r, nominal_literal env literal_id (env.type_builtin type o) = .ok r) →
      ∃ res, structural_literal_loop env literal_id type names result = .ok res ∧
        ((res = result ∧ ∀ o ∈ names, structural_candidate env literal_id type o = false) ∨
         ∃ pre o post, names = pre ++ o :: post ∧ res = some (env.type_builtin type o) ∧
           structural_candidate env literal_id type o = true ∧
           ∀ o1 ∈ post, structural_candidate env literal_id type o1 = false) := by
  intro names
  induction names with
  | nil =>
    intro result _
    exact ⟨result, by simp [structural_literal_loop], Or.inl ⟨rfl, by simp⟩⟩
  | cons o os ih =>
    intro result h
    obtain ⟨r, hr⟩ := h o (List.mem_cons_self _ _)
    have hos : ∀ o1 ∈ os, ∃ r, nominal_literal env literal_id (env.type_builtin type o1) = .ok r :=
      fun o1 h1 => h o1 (List.mem_cons_of_mem _ h1)
    have skip : structural_candidate env literal_id type o = false →
        structural_literal_loop env literal_id type os result =
          structural_literal_loop env literal_id type (o :: os) result →
        ∃ res, structural_literal_loop env literal_id type (o :: os) result = .ok res ∧
        ((res = result ∧ ∀ o1 ∈ o :: os, structural_candidate env literal_id type o1 = false) ∨
         ∃ pre o1 post, o :: os = pre ++ o1 :: post ∧ res = some (env.type_builtin type o1) ∧
           structural_candidate env literal_id type o1 = true ∧
           ∀ o2 ∈ post, structural_candidate env literal_id type o2 = false) := by
      intro hc heq
      obtain ⟨res, hres, hcase⟩ := ih result hos
      refine ⟨res, by rw [← heq]; exact hres, ?_⟩
      rcases hcase with ⟨h1, h2⟩ | ⟨pre, o1, post, h1, h2, h3, h4⟩
      · refine Or.inl ⟨h1, ?_⟩
        intro o1 ho1
        rcases List.mem_cons.mp ho1 with e | e
        · rw [e]; exact hc
        · exact h2 o1 e
      · exact Or.inr ⟨o :: pre, o1, post, by simp [h1], h2, h3, h4⟩
    cases r with
    | none =>
      apply skip
      · simp [structural_candidate, hr]
      · simp [structural_literal_loop, hr]
    | some a =>
      have ha : a = env.type_builtin type o := nominal_literal_some env literal_id _ a hr
      by_cases hs : env.is_subtype a type = true
      · have hc : structural_candidate env literal_id type o = true := by
          simp [structural_candidate, hr, hs]
        obtain ⟨res, hres, hcase⟩ := ih (some a) hos
        refine ⟨res, by simp [structural_literal_loop, hr, hs, hres], Or.inr ?_⟩
        rcases hcase with ⟨h1, h2⟩ | ⟨pre, o1, post, h1, h2, h3, h4⟩
        · exact ⟨[], o, os, rfl, by rw [h1, ha], hc, h2⟩
        · exact ⟨o :: pre, o1, post, by simp [h1], h2, h3, h4⟩
      · apply skip
        · simp only [Bool.not_eq_true] at hs
          simp [structural_candidate, hr, hs]
        · simp [structural_literal_loop, hr, hs]

theorem order_nodup : order.Nodup := by decide

/-- C13: for a Structural target whose table primitives are built as
nominals of their name, the resolver returns a result; it is no fit exactly
when no table primitive both passes the marker rule and is a subtype of the
target; otherwise it is the builtin type of such a primitive, and every such
primitive has a rank not above the rank of the one returned. -/
theorem C13_structural_literal_is_widest (env : env_t) (fuel : Nat)
    (literal_id : token_id) (type : ast_t)
    (hlit : literal_id = TK_INTLITERAL ∨ literal_id = TK_FLOATLITERAL)
    (hid : ast_id type = TK_STRUCTURAL)
    (hb : ∀ name ∈ order, ∃ cap, env.type_builtin type name = nominal name cap) :
    ∃ res, is_literal_subtype env (fuel + 1) literal_id type = .ok res ∧
      (res = none ↔ ∀ name ∈ order, structural_candidate env literal_id type name = false) ∧
      (∀ t, res = some t →
        ∃ name ∈ order, t = env.type_builtin type name ∧
          structural_candidate env literal_id type name = true ∧
          ∀ name1 ∈ order, structural_candidate env literal_id type name1 = true →
            rank_leq (env.type_builtin type name1) t) := by
  rw [is_literal_subtype_structural env fuel literal_id hlit type hid]
  have hok : ∀ o ∈ order,
      ∃ r, nominal_literal env literal_id (env.type_builtin type o) = .ok r := by
    intro o ho
    obtain ⟨cap, hcap⟩ := hb o ho
    rw [hcap, nominal_literal_nominal]
    exact ⟨_, rfl⟩
  obtain ⟨res, hres, hcase⟩ := structural_literal_loop_spec env literal_id type order none hok
  refine ⟨res, hres, ?_, ?_⟩
  · rcases hcase with ⟨h1, h2⟩ | ⟨pre, o, post, h1, h2, h3, h4⟩
    · exact ⟨fun _ => h2, fun _ => h1⟩
    · constructor
      · intro hn; rw [hn] at h2; simp at h2
      · intro hall
        have : o ∈ order := by rw [h1]; simp
        rw [hall o this] at h3
        simp at h3
  · intro t ht
    rcases hcase with ⟨h1, h2⟩ | ⟨pre, o, post, h1, h2, h3, h4⟩
    · rw [h1] at ht; simp at ht
    · rw [ht] at h2
      simp only [Option.some.injEq] at h2
      have ho : o ∈ order := by rw [h1]; simp
      refine ⟨o, ho, h2, h3, ?_⟩
      intro name1 hmem hc1
      have hnd := order_nodup
      rw [h1] at hnd hmem
      have hopre : o ∉ pre := by
        intro hin
        have := (List.nodup_append.mp hnd).2.2
        exact this hin (List.mem_cons_self _ _)
      obtain ⟨capo, hcapo⟩ := hb o ho
      have hio : index_literal (env.type_builtin type o) = .ok pre.length := by
        rw [hcapo, index_literal_nominal, h1,
          index_literal_loop_append_not_mem o (o :: post) pre 0 hopre]
        simp [index_literal_loop]
      rcases List.mem_append.mp hmem with hin | hin
      · obtain ⟨cap1, hcap1⟩ := hb name1 (by rw [h1]; exact List.mem_append_left _ hin)
        obtain ⟨i, hi, hlt⟩ := index_literal_loop_append_mem name1 (o :: post) pre 0 hin
        refine ⟨i, pre.length, ?_, by rw [h2]; exact hio, by omega⟩
        rw [hcap1, index_literal_nominal, h1]
        exact hi
      · rcases List.mem_cons.mp hin with e | e
        · subst e
          exact ⟨pre.length, pre.length, hio, by rw [h2]; exact hio, le_refl _⟩
        · rw [h4 name1 e] at hc1
          simp at hc1

theorem C13_structural_literal_is_widest_witness :
    (TK_INTLITERAL = TK_INTLITERAL ∨ TK_INTLITERAL = TK_FLOATLITERAL) ∧
    ast_id (structural_of ["signed_only"]) = TK_STRUCTURAL ∧
    (∀ name ∈ order, ∃ cap,
      usual_env.type_builtin (structural_of ["signed_only"]) name = nominal name cap) ∧
    is_literal_subtype usual_env (0 + 1) TK_INTLITERAL (structural_of ["signed_only"]) =
      .ok (some (nominal "I128" TK_VAL)) ∧
    ∃ res, is_literal_subtype usual_env (0 + 1) TK_INTLITERAL
        (structural_of ["signed_only"]) = .ok res ∧
      (res = none ↔ ∀ name ∈ order, structural_candidate usual_env TK_INTLITERAL
        (structural_of ["signed_only"]) name = false) ∧
      (∀ t, res = some t →
        ∃ name ∈ order, t = usual_env.type_builtin (structural_of ["signed_only"]) name ∧
          structural_candidate usual_env TK_INTLITERAL (structural_of ["signed_only"])
            name = true ∧
          ∀ name1 ∈ order, structural_candidate usual_env TK_INTLITERAL
              (structural_of ["signed_only"]) name1 = true →
            rank_leq (usual_env.type_builtin (structural_of ["signed_only"]) name1) t) :=
  ⟨Or.inl rfl, rfl, fun _ _ => ⟨TK_VAL, rfl⟩, rfl,
    C13_structural_literal_is_widest usual_env 0 TK_INTLITERAL
      (structural_of ["signed_only"]) (Or.inl rfl) rfl (fun _ _ => ⟨TK_VAL, rfl⟩)⟩

/-! ## C14, C15: union and intersection targets -/

theorem wide_literal_spec (a b : Option ast_t)
    (ha : ∀ t, a = some t → ∃ i, index_literal t = .ok i)
    (hb : ∀ t, b = some t → ∃ i, index_literal t = .ok i) :
    ∃ r, wide_literal a b = .ok r ∧ (r = a ∨ r = b) ∧ (r = none ↔ a = none ∧ b = none) ∧
      ∀ t, r = some t → ∀ t1, (a = some t1 ∨ b = some t1) → rank_leq t1 t := by
  cases a with
  | none =>
    refine ⟨b, by simp [wide_literal], Or.inr rfl, by simp, ?_⟩
    intro t ht t1 h1
    rcases h1 with h1 | h1
    · simp at h1
    · rw [ht] at h1
      simp only [Option.some.injEq] at h1
      subst h1
      obtain ⟨i, hi⟩ := hb t ht
      exact ⟨i, i, hi, hi, le_refl _⟩
  | some x =>
    obtain ⟨i, hi⟩ := ha x rfl
    cases b with
    | none =>
      refine ⟨some x, by simp [wide_literal], Or.inl rfl, by simp, ?_⟩
      intro t ht t1 h1
      simp only [Option.some.injEq] at ht
      subst ht
      rcases h1 with h1 | h1
      · simp only [Option.some.injEq] at h1
        subst h1
        exact ⟨i, i, hi, hi, le_refl _⟩
      · simp at h1
    | some y =>
      obtain ⟨j, hj⟩ := hb y rfl
      by_cases hij : i ≥ j
      · refine ⟨some x, by simp [wide_literal, hi, hj, hij], Or.inl rfl, by simp, ?_⟩
        intro t ht t1 h1
        simp only [Option.some.injEq] at ht
        subst ht
        rcases h1 with h1 | h1 <;> simp only [Option.some.injEq] at h1 <;> subst h1
        · exact ⟨i, i, hi, hi, le_refl _⟩
        · exact ⟨j, i, hj, hi, hij⟩
      · refine ⟨some y, by simp [wide_literal, hi, hj, hij], Or.inr rfl, by simp, ?_⟩
        intro t ht t1 h1
        simp only [Option.some.injEq] at ht
        subst ht
        rcases h1 with h1 | h1 <;> simp only [Option.some.injEq] at h1 <;> subst h1
        · exact ⟨i, j, hi, hj, by omega⟩
        · exact ⟨j, j, hj, hj, le_refl _⟩

theorem narrow_literal_spec (a b : Option ast_t)
    (ha : ∀ t, a = some t → ∃ i, index_literal t = .ok i)
    (hb : ∀ t, b = some t → ∃ i, index_literal t = .ok i) :
    ∃ r, narrow_literal a b = .ok r ∧ (r = a ∨ r = b) ∧ (r = none ↔ a = none ∧ b = none) ∧
      ∀ t, r = some t → ∀ t1, (a = some t1 ∨ b = some t1) → rank_leq t t1 := by
  cases a with
  | none =>
    refine ⟨b, by simp [narrow_literal], Or.inr rfl, by simp, ?_⟩
    intro t ht t1 h1
    rcases h1 with h1 | h1
    · simp at h1
    · rw [ht] at h1
      simp only [Option.some.injEq] at h1
      subst h1
      obtain ⟨i, hi⟩ := hb t ht
      exact ⟨i, i, hi, hi, le_refl _⟩
  | some x =>
    obtain ⟨i, hi⟩ := ha x rfl
    cases b with
    | none =>
      refine ⟨some x, by simp [narrow_literal], Or.inl rfl, by simp, ?_⟩
      intro t ht t1 h1
      simp only [Option.some.injEq] at ht
      subst ht
      rcases h1 with h1 | h1
      · simp only [Option.some.injEq] at h1
        subst h1
        exact ⟨i, i, hi, hi, le_refl _⟩
      · simp at h1
    | some y =>
      obtain ⟨j, hj⟩ := hb y rfl
      by_cases hij : i ≤ j
      · refine ⟨some x, by simp [narrow_literal, hi, hj, hij], Or.inl rfl, by simp, ?_⟩
        intro t ht t1 h1
        simp only [Option.some.injEq] at ht
        subst ht
        rcases h1 with h1 | h1 <;> simp only [Option.some.injEq] at h1 <;> subst h1
        · exact ⟨i, i, hi, hi, le_refl _⟩
        · exact ⟨i, j, hi, hj, hij⟩
      · refine ⟨some y, by simp [narrow_literal, hi, hj, hij], Or.inr rfl, by simp, ?_⟩
        intro t ht t1 h1
        simp only [Option.some.injEq] at ht
        subst ht
        rcases h1 with h1 | h1 <;> simp only [Option.some.injEq] at h1 <;> subst h1
        · exact ⟨j, i, hj, hi, by omega⟩
        · exact ⟨j, j, hj, hj, le_refl _⟩

/-- The loop of `union_literal` over members that all return, with ranked
resolutions: the result is absent exactly when the incoming result and every
member resolution are absent, and otherwise is the incoming result or a member
resolution, of a rank not below that of the incoming result and of every
member resolution. -/
theorem union_literal_loop_spec (self : token_id → ast_t → Except fault (Option ast_t))
    (literal_id : token_id) :
    ∀ (members : List ast_t) (result : Option ast_t),
      (∀ m ∈ members, ∃ r, self literal_id m = .ok r ∧
        ∀ t, r = some t → ∃ i, index_literal t = .ok i) →
      (∀ t, result = some t → ∃ i, index_literal t = .ok i) →
      ∃ res, union_literal_loop self literal_id members result = .ok res ∧
        (res = none ↔ result = none ∧ ∀ m ∈ members, self literal_id m = .ok none) ∧
        ∀ t, res = some t →
          (result = some t ∨ ∃ m ∈ members, self literal_id m = .ok (some t)) ∧
          ∀ t1, (result = some t1 ∨ ∃ m ∈ members, self literal_id m = .ok (some t1)) →
            rank_leq t1 t := by
  intro members
  induction members with
  | nil =>
    intro result _ hres
    refine ⟨result, by simp [union_literal_loop], by simp, ?_⟩
    intro t ht
    refine ⟨Or.inl ht, ?_⟩
    intro t1 h1
    rcases h1 with h1 | ⟨m, hm, _⟩
    · rw [ht] at h1
      simp only [Option.some.injEq] at h1
      subst h1
      obtain ⟨i, hi⟩ := hres t ht
      exact ⟨i, i, hi, hi, le_refl _⟩
    · simp at hm
  | cons m ms ih =>
    intro result hmem hres
    obtain ⟨r, hr, hri⟩ := hmem m (List.mem_cons_self _ _)
    obtain ⟨w, hw, hwc, hwn, hwr⟩ := wide_literal_spec result r hres hri
    have hwi : ∀ t, w = some t → ∃ i, index_literal t = .ok i := by
      intro t ht
      rcases hwc with e | e
      · exact hres t (by rw [← e]; exact ht)
      · exact hri t (by rw [← e]; exact ht)
    obtain ⟨res, hloop, hnone, hsome⟩ :=
      ih w (fun m1 h1 => hmem m1 (List.mem_cons_of_mem _ h1)) hwi
    refine ⟨res, by simp [union_literal_loop, hr, hw, hloop], ?_, ?_⟩
    · rw [hnone, hwn]
      constructor
      · rintro ⟨⟨h1, h2⟩, h3⟩
        refine ⟨h1, ?_⟩
        intro m1 hm1
        rcases List.mem_cons.mp hm1 with e | e
        · rw [e, hr, h2]
        · exact h3 m1 e
      · rintro ⟨h1, h2⟩
        have hm := h2 m (List.mem_cons_self _ _)
        rw [hr] at hm
        simp only [Except.ok.injEq] at hm
        exact ⟨⟨h1, hm⟩, fun m1 h3 => h2 m1 (List.mem_cons_of_mem _ h3)⟩
    · intro t ht
      obtain ⟨hfrom, hmax⟩ := hsome t ht
      have hwfrom : ∀ t1, w = some t1 →
          result = some t1 ∨ ∃ m1 ∈ m :: ms, self literal_id m1 = .ok (some t1) := by
        intro t1 h1
        rcases hwc with e | e
        · exact Or.inl (by rw [← e]; exact h1)
        · exact Or.inr ⟨m, List.mem_cons_self _ _, by rw [hr, ← e, h1]⟩
      constructor
      · rcases hfrom with h1 | ⟨m1, hm1, h1⟩
        · exact hwfrom t h1
        · exact Or.inr ⟨m1, List.mem_cons_of_mem _ hm1, h1⟩
      · intro t1 h1
        have viaw : ∀ t2, w = some t2 → rank_leq t1 t2 → rank_leq t1 t := by
          intro t2 h2 h12
          obtain ⟨i, j, hi, hj, hij⟩ := h12
          obtain ⟨j1, k, hj1, hk, hjk⟩ := hmax t2 (Or.inl h2)
          rw [hj] at hj1
          simp only [Except.ok.injEq] at hj1
          exact ⟨i, k, hi, hk, by omega⟩
        have hwsome : ∀ t2, (result = some t2 ∨ r = some t2) → ∃ t3, w = some t3 := by
          intro t2 h2
          cases hw1 : w with
          | none =>
            have := hwn.mp hw1
            rcases h2 with e | e
            · rw [this.1] at e; simp at e
            · rw [this.2] at e; simp at e
          | some t3 => exact ⟨t3, rfl⟩
        rcases h1 with h1 | ⟨m1, hm1, h1⟩
        · obtain ⟨t3, h3⟩ := hwsome t1 (Or.inl h1)
          exact viaw t3 h3 (hwr t3 h3 t1 (Or.inl h1))
        · rcases List.mem_cons.mp hm1 with e | e
          · have hr1 : r = some t1 := by
              rw [e, hr] at h1
              simpa using h1
            obtain ⟨t3, h3⟩ := hwsome t1 (Or.inr hr1)
            exact viaw t3 h3 (hwr t3 h3 t1 (Or.inr hr1))
          · exact hmax t1 (Or.inr ⟨m1, e, h1⟩)

/-- The loop of `isect_literal` over members that all return, with ranked
resolutions: the result is absent exactly when the incoming result and every
member resolution are absent, and otherwise is the incoming result or a member
resolution, of a rank not above that of the incoming result and of every
member resolution. -/
theorem isect_literal_loop_spec (self : token_id → ast_t → Except fault (Option ast_t))
    (literal_id : token_id) :
    ∀ (members : List ast_t) (result : Option ast_t),
      (∀ m ∈ members, ∃ r, self literal_id m = .ok r ∧
        ∀ t, r = some t → ∃ i, index_literal t = .ok i) →
      (∀ t, result = some t → ∃ i, index_literal t = .ok i) →
      ∃ res, isect_literal_loop self literal_id members result = .ok res ∧
        (res = none ↔ result = none ∧ ∀ m ∈ members, self literal_id m = .ok none) ∧
        ∀ t, res = some t →
          (result = some t ∨ ∃ m ∈ members, self literal_id m = .ok (some t)) ∧
          ∀ t1, (result = some t1 ∨ ∃ m ∈ members, self literal_id m = .ok (some t1)) →
            rank_leq t t1 := by
  intro members
  induction members with
  | nil =>
    intro result _ hres
    refine ⟨result, by simp [isect_literal_loop], by simp, ?_⟩
    intro t ht
    refine ⟨Or.inl ht, ?_⟩
    intro t1 h1
    rcases h1 with h1 | ⟨m, hm, _⟩
    · rw [ht] at h1
      simp only [Option.some.injEq] at h1
      subst h1
      obtain ⟨i, hi⟩ := hres t ht
      exact ⟨i, i, hi, hi, le_refl _⟩
    · simp at hm
  | cons m ms ih =>
    intro result hmem hres
    obtain ⟨r, hr, hri⟩ := hmem m (List.mem_cons_self _ _)
    obtain ⟨w, hw, hwc, hwn, hwr⟩ := narrow_literal_spec result r hres hri
    have hwi : ∀ t, w = some t → ∃ i, index_literal t = .ok i := by
      intro t ht
      rcases hwc with e | e
      · exact hres t (by rw [← e]; exact ht)
      · exact hri t (by rw [← e]; exact ht)
    obtain ⟨res, hloop, hnone, hsome⟩ :=
      ih w (fun m1 h1 => hmem m1 (List.mem_cons_of_mem _ h1)) hwi
    refine ⟨res, by simp [isect_literal_loop, hr, hw, hloop], ?_, ?_⟩
    · rw [hnone, hwn]
      constructor
      · rintro ⟨⟨h1, h2⟩, h3⟩
        refine ⟨h1, ?_⟩
        intro m1 hm1
        rcases List.mem_cons.mp hm1 with e | e
        · rw [e, hr, h2]
        · exact h3 m1 e
      · rintro ⟨h1, h2⟩
        have hm := h2 m (List.mem_cons_self _ _)
        rw [hr] at hm
        simp only [Except.ok.injEq] at hm
        exact ⟨⟨h1, hm⟩, fun m1 h3 => h2 m1 (List.mem_cons_of_mem _ h3)⟩
    · intro t ht
      obtain ⟨hfrom, hmax⟩ := hsome t ht
      have hwfrom : ∀ t1, w = some t1 →
          result = some t1 ∨ ∃ m1 ∈ m :: ms, self literal_id m1 = .ok (some t1) := by
        intro t1 h1
        rcases hwc with e | e
        · exact Or.inl (by rw [← e]; exact h1)
        · exact Or.inr ⟨m, List.mem_cons_self _ _, by rw [hr, ← e, h1]⟩
      constructor
      · rcases hfrom with h1 | ⟨m1, hm1, h1⟩
        · exact hwfrom t h1
        · exact Or.inr ⟨m1, List.mem_cons_of_mem _ hm1, h1⟩
      · intro t1 h1
        have viaw : ∀ t2, w = some t2 → rank_leq t2 t1 → rank_leq t t1 := by
          intro t2 h2 h12
          obtain ⟨i, j, hi, hj, hij⟩ := h12
          obtain ⟨k, i1, hk, hi1, hki⟩ := hmax t2 (Or.inl h2)
          rw [hi] at hi1
          simp only [Except.ok.injEq] at hi1
          exact ⟨k, j, hk, hj, by omega⟩
        have hwsome : ∀ t2, (result = some t2 ∨ r = some t2) → ∃ t3, w = some t3 := by
          intro t2 h2
          cases hw1 : w with
          | none =>
            have := hwn.mp hw1
            rcases h2 with e | e
            · rw [this.1] at e; simp at e
            · rw [this.2] at e; simp at e
          | some t3 => exact ⟨t3, rfl⟩
        rcases h1 with h1 | ⟨m1, hm1, h1⟩
        · obtain ⟨t3, h3⟩ := hwsome t1 (Or.inl h1)
          exact viaw t3 h3 (hwr t3 h3 t1 (Or.inl h1))
        · rcases List.mem_cons.mp hm1 with e | e
          · have hr1 : r = some t1 := by
              rw [e, hr] at h1
              simpa using h1
            obtain ⟨t3, h3⟩ := hwsome t1 (Or.inr hr1)
            exact viaw t3 h3 (hwr t3 h3 t1 (Or.inr hr1))
          · exact hmax t1 (Or.inr ⟨m1, e, h1⟩)

theorem wide_literal_none_right (a : Option ast_t) : wide_literal a none = .ok a := by
  cases a <;> simp [wide_literal]

theorem narrow_literal_none_right (a : Option ast_t) : narrow_literal a none = .ok a := by
  cases a <;> simp [narrow_literal]

/-- A member that does not resolve can be removed from a union without
changing what the loop returns. -/
theorem union_literal_loop_skip (self : token_id → ast_t → Except fault (Option ast_t))
    (literal_id : token_id) (m : ast_t) (hm : self literal_id m = .ok none)
    (post : List ast_t) :
    ∀ (pre : List ast_t) (result : Option ast_t),
      union_literal_loop self literal_id (pre ++ m :: post) result =
        union_literal_loop self literal_id (pre ++ post) result := by
  intro pre
  induction pre with
  | nil =>
    intro result
    simp [union_literal_loop, hm, wide_literal_none_right]
  | cons p ps ih =>
    intro result
    rw [List.cons_append, List.cons_append, union_literal_loop, union_literal_loop]
    cases hp : self literal_id p with
    | error e => rfl
    | ok attempt =>
      dsimp only
      cases hw : wide_literal result attempt with
      | error e => rfl
      | ok result1 => exact ih result1

/-- A member that does not resolve can be removed from an intersection
without changing what the loop returns. -/
theorem isect_literal_loop_skip (self : token_id → ast_t → Except fault (Option ast_t))
    (literal_id : token_id) (m : ast_t) (hm : self literal_id m = .ok none)
    (post : List ast_t) :
    ∀ (pre : List ast_t) (result : Option ast_t),
      isect_literal_loop self literal_id (pre ++ m :: post) result =
        isect_literal_loop self literal_id (pre ++ post) result := by
  intro pre
  induction pre with
  | nil =>
    intro result
    simp [isect_literal_loop, hm, narrow_literal_none_right]
  | cons p ps ih =>
    intro result
    rw [List.cons_append, List.cons_append, isect_literal_loop, isect_literal_loop]
    cases hp : self literal_id p with
    | error e => rfl
    | ok attempt =>
      dsimp only
      cases hw : narrow_literal result attempt with
      | error e => rfl
      | ok result1 => exact ih result1

theorem is_literal_subtype_union_target (env : env_t) (fuel : Nat) (literal_id : token_id)
    (hlit : literal_id = TK_INTLITERAL ∨ literal_id = TK_FLOATLITERAL)
    (target : ast_t) (hid : ast_id target = TK_UNIONTYPE) :
    is_literal_subtype env (fuel + 1) literal_id target =
      union_literal_loop (is_literal_subtype env fuel) literal_id
        (ast_children target) none := by
  rw [is_literal_subtype]
  simp only [hlit, not_true_eq_false, if_false, hid]
  rfl

theorem is_literal_subtype_isect_target (env : env_t) (fuel : Nat) (literal_id : token_id)
    (hlit : literal_id = TK_INTLITERAL ∨ literal_id = TK_FLOATLITERAL)
    (target : ast_t) (hid : ast_id target = TK_ISECTTYPE) :
    is_literal_subtype env (fuel + 1) literal_id target =
      isect_literal_loop (is_literal_subtype env fuel) literal_id
        (ast_children target) none := by
  rw [is_literal_subtype]
  simp only [hlit, not_true_eq_false, if_false, hid]
  rfl

/-- C14: for a Union target whose members all return, with ranked resolutions
(table nominals in particular), the resolver returns no fit exactly when every
member fails; otherwise it returns the resolution of a member, of a rank not
below that of any member's resolution; and removing a failing member does not
change the result. -/
theorem C14_union_returns_widest_member_resolution (env : env_t) (fuel : Nat)
    (literal_id : token_id) (target : ast_t)
    (hlit : literal_id = TK_INTLITERAL ∨ literal_id = TK_FLOATLITERAL)
    (hid : ast_id target = TK_UNIONTYPE)
    (hmem : ∀ m ∈ ast_children target, ∃ r,
      is_literal_subtype env fuel literal_id m = .ok r ∧
      ∀ t, r = some t → ∃ i, index_literal t = .ok i) :
    ∃ res, is_literal_subtype env (fuel + 1) literal_id target = .ok res ∧
      (res = none ↔
        ∀ m ∈ ast_children target, is_literal_subtype env fuel literal_id m = .ok none) ∧
      (∀ t, res = some t →
        (∃ m ∈ ast_children target,
          is_literal_subtype env fuel literal_id m = .ok (some t)) ∧
        ∀ m ∈ ast_children target, ∀ t1,
          is_literal_subtype env fuel literal_id m = .ok (some t1) → rank_leq t1 t) ∧
      (∀ pre m post, ast_children target = pre ++ m :: post →
        is_literal_subtype env fuel literal_id m = .ok none →
        is_literal_subtype env (fuel + 1) literal_id (union_of (pre ++ post)) = .ok res) := by
  obtain ⟨res, hloop, hnone, hsome⟩ :=
    union_literal_loop_spec (is_literal_subtype env fuel) literal_id
      (ast_children target) none hmem (by intro t ht; simp at ht)
  rw [is_literal_subtype_union_target env fuel literal_id hlit target hid]
  refine ⟨res, hloop, ?_, ?_, ?_⟩
  · rw [hnone]; simp
  · intro t ht
    obtain ⟨h1, h2⟩ := hsome t ht
    constructor
    · rcases h1 with h1 | h1
      · simp at h1
      · exact h1
    · intro m hm t1 h3
      exact h2 t1 (Or.inr ⟨m, hm, h3⟩)
  · intro pre m post hsplit hm
    rw [is_literal_subtype_union env fuel literal_id hlit,
      ← union_literal_loop_skip (is_literal_subtype env fuel) literal_id m hm post pre none,
      ← hsplit]
    exact hloop

theorem C14_union_returns_widest_member_resolution_witness :
    is_literal_subtype usual_env 1 TK_FLOATLITERAL (nominal "I32" TK_VAL) = .ok none ∧
    is_literal_subtype usual_env 1 TK_FLOATLITERAL (nominal "F64" TK_VAL) =
      .ok (some (nominal "F64" TK_VAL)) ∧
    is_literal_subtype usual_env (1 + 1) TK_FLOATLITERAL
        (union_of [nominal "I32" TK_VAL, nominal "F64" TK_VAL]) =
      .ok (some (nominal "F64" TK_VAL)) ∧
    ∃ res, is_literal_subtype usual_env (1 + 1) TK_FLOATLITERAL
        (union_of [nominal "I32" TK_VAL, nominal "F64" TK_VAL]) = .ok res ∧
      (res = none ↔
        ∀ m ∈ ast_children (union_of [nominal "I32" TK_VAL, nominal "F64" TK_VAL]),
          is_literal_subtype usual_env 1 TK_FLOATLITERAL m = .ok none) ∧
      (∀ t, res = some t →
        (∃ m ∈ ast_children (union_of [nominal "I32" TK_VAL, nominal "F64" TK_VAL]),
          is_literal_subtype usual_env 1 TK_FLOATLITERAL m = .ok (some t)) ∧
        ∀ m ∈ ast_children (union_of [nominal "I32" TK_VAL, nominal "F64" TK_VAL]),
          ∀ t1, is_literal_subtype usual_env 1 TK_FLOATLITERAL m = .ok (some t1) →
            rank_leq t1 t) ∧
      (∀ pre m post,
        ast_children (union_of [nominal "I32" TK_VAL, nominal "F64" TK_VAL]) =
          pre ++ m :: post →
        is_literal_subtype usual_env 1 TK_FLOATLITERAL m = .ok none →
        is_literal_subtype usual_env (1 + 1) TK_FLOATLITERAL (union_of (pre ++ post)) =
          .ok res) :=
  ⟨rfl, rfl, rfl,
    C14_union_returns_widest_member_resolution usual_env 1 TK_FLOATLITERAL
      (union_of [nominal "I32" TK_VAL, nominal "F64" TK_VAL]) (Or.inr rfl) rfl
      (by
        intro m hm
        simp only [union_of, ast_children_mk, List.mem_cons, List.mem_singleton,
          List.not_mem_nil, or_false] at hm
        rcases hm with h | h
        · subst h
          exact ⟨none, rfl, by intro t ht; simp at ht⟩
        · subst h
          refine ⟨some (nominal "F64" TK_VAL), rfl, ?_⟩
          intro t ht
          simp only [Option.some.injEq] at ht
          subst ht
          exact ⟨11, rfl⟩)⟩

/-- C15: for an Intersection target whose members all return, with ranked
resolutions (table nominals in particular), a failing member is skipped: the
resolver returns no fit exactly when every member fails; otherwise it returns
the resolution of a member, of a rank not above that of any member's
resolution; and removing a failing member does not change the result. -/
theorem C15_isect_returns_narrowest_member_resolution (env : env_t) (fuel : Nat)
    (literal_id : token_id) (target : ast_t)
    (hlit : literal_id = TK_INTLITERAL ∨ literal_id = TK_FLOATLITERAL)
    (hid : ast_id target = TK_ISECTTYPE)
    (hmem : ∀ m ∈ ast_children target, ∃ r,
      is_literal_subtype env fuel literal_id m = .ok r ∧
      ∀ t, r = some t → ∃ i, index_literal t = .ok i) :
    ∃ res, is_literal_subtype env (fuel + 1) literal_id target = .ok res ∧
      (res = none ↔
        ∀ m ∈ ast_children target, is_literal_subtype env fuel literal_id m = .ok none) ∧
      (∀ t, res = some t →
        (∃ m ∈ ast_children target,
          is_literal_subtype env fuel literal_id m = .ok (some t)) ∧
        ∀ m ∈ ast_children target, ∀ t1,
          is_literal_subtype env fuel literal_id m = .ok (some t1) → rank_leq t t1) ∧
      (∀ pre m post, ast_children target = pre ++ m :: post →
        is_literal_subtype env fuel literal_id m = .ok none →
        is_literal_subtype env (fuel + 1) literal_id (isect_of (pre ++ post)) = .ok res) := by
  obtain ⟨res, hloop, hnone, hsome⟩ :=
    isect_literal_loop_spec (is_literal_subtype env fuel) literal_id
      (ast_children target) none hmem (by intro t ht; simp at ht)
  rw [is_literal_subtype_isect_target env fuel literal_id hlit target hid]
  refine ⟨res, hloop, ?_, ?_, ?_⟩
  · rw [hnone]; simp
  · intro t ht
    obtain ⟨h1, h2⟩ := hsome t ht
    constructor
    · rcases h1 with h1 | h1
      · simp at h1
      · exact h1
    · intro m hm t1 h3
      exact h2 t1 (Or.inr ⟨m, hm, h3⟩)
  · intro pre m post hsplit hm
    rw [is_literal_subtype_isect env fuel literal_id hlit,
      ← isect_literal_loop_skip (is_literal_subtype env fuel) literal_id m hm post pre none,
      ← hsplit]
    exact hloop

theorem C15_isect_returns_narrowest_member_resolution_witness :
    is_literal_subtype usual_env 1 TK_INTLITERAL (nominal "String" TK_VAL) = .ok none ∧
    is_literal_subtype usual_env (1 + 1) TK_INTLITERAL
        (isect_of [nominal "I64" TK_VAL, nominal "String" TK_VAL, nominal "U16" TK_VAL]) =
      .ok (some (nominal "U16" TK_VAL)) ∧
    ∃ res, is_literal_subtype usual_env (1 + 1) TK_INTLITERAL
        (isect_of [nominal "I64" TK_VAL, nominal "String" TK_VAL, nominal "U16" TK_VAL]) =
        .ok res ∧
      (res = none ↔
        ∀ m ∈ ast_children
            (isect_of [nominal "I64" TK_VAL, nominal "String" TK_VAL, nominal "U16" TK_VAL]),
          is_literal_subtype usual_env 1 TK_INTLITERAL m = .ok none) ∧
      (∀ t, res = some t →
        (∃ m ∈ ast_children
            (isect_of [nominal "I64" TK_VAL, nominal "String" TK_VAL, nominal "U16" TK_VAL]),
          is_literal_subtype usual_env 1 TK_INTLITERAL m = .ok (some t)) ∧
        ∀ m ∈ ast_children
            (isect_of [nominal "I64" TK_VAL, nominal "String" TK_VAL, nominal "U16" TK_VAL]),
          ∀ t1, is_literal_subtype usual_env 1 TK_INTLITERAL m = .ok (some t1) →
            rank_leq t t1) ∧
      (∀ pre m post,
        ast_children
            (isect_of [nominal "I64" TK_VAL, nominal "String" TK_VAL, nominal "U16" TK_VAL]) =
          pre ++ m :: post →
        is_literal_subtype usual_env 1 TK_INTLITERAL m = .ok none →
        is_literal_subtype usual_env (1 + 1) TK_INTLITERAL (isect_of (pre ++ post)) =
          .ok res) :=
  ⟨rfl, rfl,
    C15_isect_returns_narrowest_member_resolution usual_env 1 TK_INTLITERAL
      (isect_of [nominal "I64" TK_VAL, nominal "String" TK_VAL, nominal "U16" TK_VAL])
      (Or.inl rfl) rfl
      (by
        intro m hm
        simp only [isect_of, ast_children_mk, List.mem_cons, List.mem_singleton,
          List.not_mem_nil, or_false] at hm
        rcases hm with h | h | h
        · subst h
          refine ⟨some (nominal "I64" TK_VAL), rfl, ?_⟩
          intro t ht
          simp only [Option.some.injEq] at ht
          subst ht
          exact ⟨7, rfl⟩
        · subst h
          exact ⟨none, rfl, by intro t ht; simp at ht⟩
        · subst h
          refine ⟨some (nominal "U16" TK_VAL), rfl, ?_⟩
          intro t ht
          simp only [Option.some.injEq] at ht
          subst ht
          exact ⟨2, rfl⟩)⟩

/-! ## C16: type parameter references and the constraint rule -/

theorem is_literal_subtype_typeparamref_target (env : env_t) (fuel : Nat)
    (literal_id : token_id)
    (hlit : literal_id = TK_INTLITERAL ∨ literal_id = TK_FLOATLITERAL)
    (target : ast_t) (hid : ast_id target = TK_TYPEPARAMREF) :
    is_literal_subtype env (fuel + 1) literal_id target =
      typeparam_literal (constraint_literal env fuel) literal_id target := by
  rw [is_literal_subtype]
  simp only [hlit, not_true_eq_false, if_false, hid]

theorem constraint_literal_loop_all_some
    (self : token_id → ast_t → Except fault (Option ast_t)) (literal_id : token_id) :
    ∀ (members : List ast_t) (result : Option ast_t) (t : ast_t),
      constraint_literal_loop self literal_id members result = .ok (some t) →
      ∀ m ∈ members, ∃ t1, self literal_id m = .ok (some t1) := by
  intro members
  induction members with
  | nil => intro result t _ m hm; simp at hm
  | cons c cs ih =>
    intro result t h m hm
    rw [constraint_literal_loop] at h
    cases hc : self literal_id c with
    | error e => simp [hc] at h
    | ok attempt =>
      cases attempt with
      | none => simp [hc] at h
      | some a =>
        simp only [hc] at h
        cases hw : wide_literal result (some a) with
        | error e => simp [hw] at h
        | ok result1 =>
          simp only [hw] at h
          rcases List.mem_cons.mp hm with e | e
          · exact ⟨a, by rw [e]; exact hc⟩
          · exact ih result1 t h m e

theorem constraint_literal_loop_veto
    (self : token_id → ast_t → Except fault (Option ast_t)) (literal_id : token_id) :
    ∀ (members : List ast_t) (result : Option ast_t),
      (∀ m ∈ members, ∃ r, self literal_id m = .ok r ∧
        ∀ t, r = some t → ∃ i, index_literal t = .ok i) →
      (∀ t, result = some t → ∃ i, index_literal t = .ok i) →
      (∃ m ∈ members, self literal_id m = .ok none) →
      constraint_literal_loop self literal_id members result = .ok none := by
  intro members
  induction members with
  | nil => intro result _ _ h; obtain ⟨m, hm, _⟩ := h; simp at hm
  | cons c cs ih =>
    intro result hmem hres hfail
    obtain ⟨r, hr, hri⟩ := hmem c (List.mem_cons_self _ _)
    rw [constraint_literal_loop]
    cases r with
    | none => simp [hr]
    | some a =>
      obtain ⟨w, hw, hwc, _, _⟩ := wide_literal_spec result (some a) hres hri
      have hwi : ∀ t, w = some t → ∃ i, index_literal t = .ok i := by
        intro t ht
        rcases hwc with e | e
        · exact hres t (by rw [← e]; exact ht)
        · exact hri t (by rw [← e]; exact ht)
      simp only [hr, hw]
      apply ih w (fun m1 h1 => hmem m1 (List.mem_cons_of_mem _ h1)) hwi
      obtain ⟨m, hm, hmn⟩ := hfail
      rcases List.mem_cons.mp hm with e | e
      · rw [e, hr] at hmn
        simp at hmn
      · exact ⟨m, e, hmn⟩

/-- C16: for a type parameter reference the resolver returns the reference
itself when the constraint rule returns a fit for the declared constraint and
no fit when it returns none; the constraint rule is the resolver itself on a
constraint that is not a Union; on a Union it returns a fit only if it returns
one for every member, and returns no fit as soon as one of the members (which
all return, with ranked fits) has none. -/
theorem C16_typeparam_literal_and_constraint_rule (env : env_t) (fuel : Nat)
    (literal_id : token_id) (target param constraint : ast_t)
    (hlit : literal_id = TK_INTLITERAL ∨ literal_id = TK_FLOATLITERAL)
    (hid : ast_id target = TK_TYPEPARAMREF)
    (hdata : ast_data target = some param)
    (hconstraint : ast_childidx param 1 = some constraint) :
    (is_literal_subtype env (fuel + 1) literal_id target =
      match constraint_literal env fuel literal_id constraint with
      | .error e => .error e
      | .ok none => .ok none
      | .ok (some _) => .ok (some target)) ∧
    (∀ n c, ast_id c ≠ TK_UNIONTYPE →
      constraint_literal env (n + 1) literal_id c = is_literal_subtype env n literal_id c) ∧
    (∀ n u t, ast_id u = TK_UNIONTYPE →
      constraint_literal env (n + 1) literal_id u = .ok (some t) →
      ∀ m ∈ ast_children u, ∃ t1, constraint_literal env n literal_id m = .ok (some t1)) ∧
    (∀ n u, ast_id u = TK_UNIONTYPE →
      (∀ m ∈ ast_children u, ∃ r, constraint_literal env n literal_id m = .ok r ∧
        ∀ t, r = some t → ∃ i, index_literal t = .ok i) →
      (∃ m ∈ ast_children u, constraint_literal env n literal_id m = .ok none) →
      constraint_literal env (n + 1) literal_id u = .ok none) := by
  refine ⟨?_, ?_, ?_, ?_⟩
  · rw [is_literal_subtype_typeparamref_target env fuel literal_id hlit target hid]
    unfold typeparam_literal
    simp only [hdata, hconstraint]
  · intro n c hc
    rw [constraint_literal, if_pos hc]
  · intro n u t hu h m hm
    rw [constraint_literal, if_neg (by simp [hu])] at h
    exact constraint_literal_loop_all_some _ literal_id _ none t h m hm
  · intro n u hu hmem hfail
    rw [constraint_literal, if_neg (by simp [hu])]
    exact constraint_literal_loop_veto _ literal_id _ none hmem (by intro t ht; simp at ht)
      hfail

theorem C16_typeparam_literal_and_constraint_rule_witness :
    is_literal_subtype usual_env (3 + 1) TK_INTLITERAL
        (typeparamref_of "A" (union_of [nominal "I32" TK_VAL, nominal "U8" TK_VAL])) =
      .ok (some (typeparamref_of "A" (union_of [nominal "I32" TK_VAL, nominal "U8" TK_VAL]))) ∧
    is_literal_subtype usual_env (3 + 1) TK_INTLITERAL
        (typeparamref_of "A" (union_of [nominal "I32" TK_VAL, nominal "String" TK_VAL])) =
      .ok none ∧
    (is_literal_subtype usual_env (3 + 1) TK_INTLITERAL
        (typeparamref_of "A" (union_of [nominal "I32" TK_VAL, nominal "String" TK_VAL])) =
      match constraint_literal usual_env 3 TK_INTLITERAL
          (union_of [nominal "I32" TK_VAL, nominal "String" TK_VAL]) with
      | .error e => .error e
      | .ok none => .ok none
      | .ok (some _) =>
        .ok (some (typeparamref_of "A"
          (union_of [nominal "I32" TK_VAL, nominal "String" TK_VAL])))) :=
  ⟨rfl, rfl,
    (C16_typeparam_literal_and_constraint_rule usual_env 3 TK_INTLITERAL
      (typeparamref_of "A" (union_of [nominal "I32" TK_VAL, nominal "String" TK_VAL]))
      (.mk TK_TYPEPARAM "" [ident "A", union_of [nominal "I32" TK_VAL, nominal "String" TK_VAL],
        leaf TK_NONE] none none)
      (union_of [nominal "I32" TK_VAL, nominal "String" TK_VAL])
      (Or.inl rfl) rfl rfl rfl).1⟩

/-! ## C17: arrow targets -/

theorem is_literal_subtype_arrow_target (env : env_t) (fuel : Nat) (literal_id : token_id)
    (hlit : literal_id = TK_INTLITERAL ∨ literal_id = TK_FLOATLITERAL)
    (target : ast_t) (hid : ast_id target = TK_ARROW) :
    is_literal_subtype env (fuel + 1) literal_id target =
      arrow_literal env (is_literal_subtype env fuel) literal_id target := by
  rw [is_literal_subtype]
  simp only [hlit, not_true_eq_false, if_false, hid]

/-- An arrow whose right side has the arrow itself as upper bound never gets a
result: every call-depth budget is used up. -/
theorem is_literal_subtype_arrow_self (env : env_t) (literal_id : token_id)
    (target right : ast_t) (hid : ast_id target = TK_ARROW)
    (hright : ast_childidx target 1 = some right)
    (hself : env.viewpoint_upper right = target) :
    ∀ fuel, ∃ e, is_literal_subtype env fuel literal_id target = .error e := by
  intro fuel
  induction fuel with
  | zero => exact ⟨fault.fuel, by simp [is_literal_subtype]⟩
  | succ n ih =>
    obtain ⟨e, he⟩ := ih
    rw [is_literal_subtype]
    split
    · exact ⟨_, rfl⟩
    · simp only [hid]
      unfold arrow_literal
      simp only [hright, hself, he]
      exact ⟨_, rfl⟩

theorem child_ne_parent (target child : ast_t) (idx : Nat)
    (h : ast_childidx target idx = some child) : child ≠ target := by
  obtain ⟨id, name, children, ty, data⟩ := target
  simp only [ast_childidx, ast_children_mk] at h
  have hmem : child ∈ children := List.getElem?_mem h
  have hlt := List.sizeOf_lt_of_mem hmem
  intro heq
  have hsz : sizeOf child = sizeOf (ast_t.mk id name children ty data) := by rw [heq]
  rw [ast_t.mk.sizeOf_spec] at hsz
  omega

/-- C17: for an Arrow target the resolver returns the arrow itself exactly
when the literal resolves against the viewpoint upper bound of the arrow's
right side, and no fit exactly when that resolution is no fit; a returned type
is the arrow, never the right side and never the upper bound. -/
theorem C17_arrow_literal_returns_arrow (env : env_t) (fuel : Nat)
    (literal_id : token_id) (target right : ast_t)
    (hlit : literal_id = TK_INTLITERAL ∨ literal_id = TK_FLOATLITERAL)
    (hid : ast_id target = TK_ARROW)
    (hright : ast_childidx target 1 = some right) :
    (is_literal_subtype env (fuel + 1) literal_id target = .ok (some target) ↔
      ∃ u, is_literal_subtype env fuel literal_id (env.viewpoint_upper right) =
        .ok (some u)) ∧
    (is_literal_subtype env (fuel + 1) literal_id target = .ok none ↔
      is_literal_subtype env fuel literal_id (env.viewpoint_upper right) = .ok none) ∧
    (∀ t, is_literal_subtype env (fuel + 1) literal_id target = .ok (some t) →
      t = target ∧ t ≠ right ∧ t ≠ env.viewpoint_upper right) := by
  have hunf := is_literal_subtype_arrow_target env fuel literal_id hlit target hid
  have key : is_literal_subtype env (fuel + 1) literal_id target =
      match is_literal_subtype env fuel literal_id (env.viewpoint_upper right) with
      | .error e => .error e
      | .ok none => .ok none
      | .ok (some _) => .ok (some target) := by
    rw [hunf]
    unfold arrow_literal
    simp only [hright]
  refine ⟨?_, ?_, ?_⟩
  · rw [key]
    cases hu : is_literal_subtype env fuel literal_id (env.viewpoint_upper right) with
    | error e => simp
    | ok r => cases r <;> simp
  · rw [key]
    cases hu : is_literal_subtype env fuel literal_id (env.viewpoint_upper right) with
    | error e => simp
    | ok r => cases r <;> simp
  · intro t ht
    have ht1 : t = target := by
      rw [hunf] at ht
      exact arrow_literal_some env _ literal_id target t ht
    refine ⟨ht1, ?_, ?_⟩
    · rw [ht1]
      exact fun e => child_ne_parent target right 1 hright e.symm
    · rw [ht1]
      intro hself
      obtain ⟨e, he⟩ := is_literal_subtype_arrow_self env literal_id target right hid hright
        hself.symm (fuel + 1)
      rw [he] at ht
      simp at ht

theorem C17_arrow_literal_returns_arrow_witness :
    is_literal_subtype usual_env 1 TK_INTLITERAL
        (usual_env.viewpoint_upper (nominal "U8" TK_VAL)) =
      .ok (some (nominal "U8" TK_VAL)) ∧
    is_literal_subtype usual_env (1 + 1) TK_INTLITERAL
        (arrow_of (leaf TK_BOX) (nominal "U8" TK_VAL)) =
      .ok (some (arrow_of (leaf TK_BOX) (nominal "U8" TK_VAL))) ∧
    is_literal_subtype usual_env (1 + 1) TK_FLOATLITERAL
        (arrow_of (leaf TK_BOX) (nominal "U8" TK_VAL)) = .ok none :=
  have h := C17_arrow_literal_returns_arrow usual_env 1
  ⟨rfl,
    (h TK_INTLITERAL (arrow_of (leaf TK_BOX) (nominal "U8" TK_VAL)) (nominal "U8" TK_VAL)
      (Or.inl rfl) rfl rfl).1.mpr ⟨_, rfl⟩,
    (h TK_FLOATLITERAL (arrow_of (leaf TK_BOX) (nominal "U8" TK_VAL)) (nominal "U8" TK_VAL)
      (Or.inr rfl) rfl rfl).2.1.mpr rfl⟩

/-! ## C18: an absent target -/

/-- C18: with an absent target `coerce_literals` returns success, reports
nothing and leaves the whole tree, hence every type slot in it, as it was,
whatever the expression and its type. -/
theorem C18_coerce_literals_absent_target (env : env_t) (fuel : Nat) (ast : ast_t) :
    coerce_literals env fuel ast none = .ok ⟨true, ast, []⟩ ∧
    (∀ r, coerce_literals env fuel ast none = .ok r →
      r.ok = true ∧ r.ast = ast ∧
      ∀ path, (subtree_at r.ast path).map ast_type = (subtree_at ast path).map ast_type) := by
  have h : coerce_literals env fuel ast none = .ok ⟨true, ast, []⟩ := by
    cases ast
    rw [coerce_literals]
  refine ⟨h, ?_⟩
  intro r hr
  rw [h] at hr
  simp only [Except.ok.injEq] at hr
  subst hr
  exact ⟨rfl, rfl, fun _ => rfl⟩

/-! ## C19: the function-body check -/

/-- C19 (as stated, refuted): for `fun f(): I32 => 1` under an oracle that
rejects the placeholder, `expr_fun` fails and leaves the body uncoerced, while
coercing the body first would have given it the type `I32`, which the oracle
accepts: the comparison is made on the type the body has before coercion. -/
theorem C19_expr_fun_compares_uncoerced_body :
    usual_env.is_subtype (leaf TK_INTLITERAL) (nominal "I32" TK_VAL) = false ∧
    expr_fun usual_env 1 (leaf (TK_OTHER 3)) (fun _ => false) fun_with_literal_body =
      .ok ⟨false, fun_with_literal_body,
        ["function body isn't a subtype of the result type",
         "function body expression is here"]⟩ ∧
    (∃ r, coerce_literals usual_env 1
          (.mk TK_SEQ "" [int_literal] (some (leaf TK_INTLITERAL)) none)
          (some (nominal "I32" TK_VAL)) = .ok r ∧
        r.ok = true ∧ ast_type r.ast = some (nominal "I32" TK_VAL)) ∧
    usual_env.is_subtype (nominal "I32" TK_VAL) (nominal "I32" TK_VAL) = true :=
  ⟨rfl, rfl, ⟨_, rfl, rfl, rfl⟩, rfl⟩

/-- C19 (amended): in `expr_fun`, for a `TK_FUN` whose typed body passes the
earlier checks, the type the body has before coercion is compared with the
result type first; when the comparison fails the check fails and the body is
not coerced, and when it succeeds the body is coerced to the result type and
the outcome of `coerce_literals` is the outcome of the check. -/
theorem C19_expr_fun_compares_then_coerces (env : env_t) (fuel : Nat)
    (enclosing_type : ast_t) (ast_canerror : ast_t → Bool)
    (ast type can_error body body_type : ast_t)
    (htype : ast_childidx ast 4 = some type)
    (hcan_error : ast_childidx ast 5 = some can_error)
    (hbody : ast_childidx ast 6 = some body)
    (hfun : ast_id ast = TK_FUN) (hsome : ast_id body ≠ TK_NONE)
    (hbody_type : ast_type body = some body_type)
    (hintrinsic : ast_id body_type ≠ TK_COMPILER_INTRINSIC)
    (hquestion : ast_id can_error = TK_QUESTION →
      ast_id enclosing_type = TK_TRAIT ∨ ast_canerror body = true)
    (htotal : ast_id can_error ≠ TK_QUESTION → ast_canerror body = false) :
    (env.is_subtype body_type type = false →
      expr_fun env fuel enclosing_type ast_canerror ast =
        .ok ⟨false, ast,
          ["function body isn't a subtype of the result type",
           "function body expression is here"]⟩) ∧
    (env.is_subtype body_type type = true →
      ∀ r, coerce_literals env fuel body (some type) = .ok r →
        expr_fun env fuel enclosing_type ast_canerror ast =
          .ok ⟨r.ok, ast_set_childidx ast 6 r.ast,
            if r.ok then r.errors
            else r.errors ++ ["function body isn't a subtype of the result type",
              "function body expression is here"]⟩) := by
  have h1 : ¬ (ast_id can_error = TK_QUESTION ∧ ast_id enclosing_type ≠ TK_TRAIT ∧
      ast_canerror body = false) := by
    rintro ⟨hq, hnt, hce⟩
    rcases hquestion hq with h | h
    · exact hnt h
    · rw [h] at hce; simp at hce
  have h2 : ¬ (ast_id can_error ≠ TK_QUESTION ∧ ast_canerror body = true) := by
    rintro ⟨hq, hce⟩
    rw [htotal hq] at hce
    simp at hce
  constructor
  · intro hsub
    unfold expr_fun
    simp only [htype, hcan_error, hbody, hsome, if_false, hbody_type, hintrinsic, h1, h2,
      hfun, if_true, hsub, Bool.false_eq_true]
  · intro hsub r hr
    unfold expr_fun
    simp only [htype, hcan_error, hbody, hsome, if_false, hbody_type, hintrinsic, h1, h2,
      hfun, if_true, hsub, hr]
    cases hok : r.ok <;> simp

theorem C19_expr_fun_compares_then_coerces_witness :
    literal_aware_env.is_subtype (leaf TK_INTLITERAL) (nominal "I32" TK_VAL) = true ∧
    coerce_literals literal_aware_env 1
        (.mk TK_SEQ "" [int_literal] (some (leaf TK_INTLITERAL)) none)
        (some (nominal "I32" TK_VAL)) =
      .ok ⟨true,
        .mk TK_SEQ "" [typed_leaf (TK_OTHER 0) (nominal "I32" TK_VAL)]
          (some (nominal "I32" TK_VAL)) none, []⟩ ∧
    expr_fun literal_aware_env 1 (leaf (TK_OTHER 3)) (fun _ => false)
        fun_with_literal_body =
      .ok ⟨true,
        ast_set_childidx fun_with_literal_body 6
          (.mk TK_SEQ "" [typed_leaf (TK_OTHER 0) (nominal "I32" TK_VAL)]
            (some (nominal "I32" TK_VAL)) none),
        []⟩ :=
  ⟨rfl, rfl,
    (C19_expr_fun_compares_then_coerces literal_aware_env 1 (leaf (TK_OTHER 3))
      (fun _ => false) fun_with_literal_body (nominal "I32" TK_VAL) (leaf TK_NONE)
      (.mk TK_SEQ "" [int_literal] (some (leaf TK_INTLITERAL)) none) (leaf TK_INTLITERAL)
      rfl rfl rfl rfl (by decide) rfl (by decide) (fun h => absurd h (by decide))
      (fun _ => rfl)).2 rfl _ rfl⟩

/-! ## C20: non-nominal candidates -/

theorem index_literal_non_nominal (x : ast_t) (hx : ast_id x ≠ TK_NOMINAL) :
    index_literal x = .ok SIZE_MAX := by
  unfold index_literal
  rw [if_pos hx]

theorem index_literal_nominal_lt (n : ast_t) (i : Nat) (hn : ast_id n = TK_NOMINAL)
    (hi : index_literal n = .ok i) : i < 12 := by
  unfold index_literal at hi
  rw [if_neg (by simp [hn])] at hi
  cases hc : ast_childidx n 1 with
  | none => simp [hc] at hi
  | some id =>
    simp only [hc] at hi
    have h := (index_literal_loop_get (ast_name id) order 0 i hi).2
    have hlt : i - 0 < order.length := by
      by_contra hge
      rw [List.getElem?_eq_none (by omega)] at h
      simp at h
    simpa [order] using hlt

theorem twelve_lt_SIZE_MAX : 12 < SIZE_MAX := by decide

theorem index_literal_le_SIZE_MAX (t : ast_t) (j : Nat) (h : index_literal t = .ok j) :
    j ≤ SIZE_MAX := by
  by_cases hn : ast_id t = TK_NOMINAL
  · have := index_literal_nominal_lt t j hn h
    have := twelve_lt_SIZE_MAX
    omega
  · rw [index_literal_non_nominal t hn] at h
    simp only [Except.ok.injEq] at h
    omega

theorem union_literal_loop_append (self : token_id → ast_t → Except fault (Option ast_t))
    (literal_id : token_id) (rest : List ast_t) :
    ∀ (pre : List ast_t) (result r1 : Option ast_t),
      union_literal_loop self literal_id pre result = .ok r1 →
      union_literal_loop self literal_id (pre ++ rest) result =
        union_literal_loop self literal_id rest r1 := by
  intro pre
  induction pre with
  | nil =>
    intro result r1 h
    simp only [union_literal_loop, Except.ok.injEq] at h
    subst h
    rfl
  | cons p ps ih =>
    intro result r1 h
    rw [List.cons_append, union_literal_loop]
    rw [union_literal_loop] at h
    cases hp : self literal_id p with
    | error e => simp [hp] at h
    | ok attempt =>
      simp only [hp] at h ⊢
      cases hw : wide_literal result attempt with
      | error e => simp [hw] at h
      | ok result1 =>
        simp only [hw] at h ⊢
        exact ih result1 r1 h

/-- Once the result of the union loop is a non-nominal candidate it stays. -/
theorem union_literal_loop_keeps_non_nominal
    (self : token_id → ast_t → Except fault (Option ast_t)) (literal_id : token_id)
    (x : ast_t) (hx : ast_id x ≠ TK_NOMINAL) :
    ∀ (post : List ast_t),
      (∀ m ∈ post, ∃ r, self literal_id m = .ok r ∧
        ∀ t, r = some t → ∃ j, index_literal t = .ok j) →
      union_literal_loop self literal_id post (some x) = .ok (some x) := by
  intro post
  induction post with
  | nil => intro _; rfl
  | cons m ms ih =>
    intro hmem
    obtain ⟨r, hr, hrt⟩ := hmem m (List.mem_cons_self _ _)
    have hw : wide_literal (some x) r = .ok (some x) := by
      cases r with
      | none => rfl
      | some t =>
        obtain ⟨j, hj⟩ := hrt t rfl
        have hle := index_literal_le_SIZE_MAX t j hj
        simp [wide_literal, index_literal_non_nominal x hx, hj, hle]
    rw [union_literal_loop]
    simp only [hr, hw]
    exact ih (fun m1 h1 => hmem m1 (List.mem_cons_of_mem _ h1))

/-- C20 (as stated, refuted): the arrow `box->U8` resolves and is a member of
`Union{A, box->U8}`, where the type parameter `A` resolves too, yet the union
resolves to `A`, the earlier of the two non-nominal members, not to the
arrow. -/
theorem C20_union_keeps_earlier_non_nominal_member :
    is_literal_subtype usual_env 3 TK_INTLITERAL (arrow_of (leaf TK_BOX) (nominal "U8" TK_VAL)) =
      .ok (some (arrow_of (leaf TK_BOX) (nominal "U8" TK_VAL))) ∧
    is_literal_subtype usual_env 3 TK_INTLITERAL (typeparamref_of "A" (nominal "I32" TK_VAL)) =
      .ok (some (typeparamref_of "A" (nominal "I32" TK_VAL))) ∧
    is_literal_subtype usual_env 4 TK_INTLITERAL
        (union_of [typeparamref_of "A" (nominal "I32" TK_VAL),
          arrow_of (leaf TK_BOX) (nominal "U8" TK_VAL)]) =
      .ok (some (typeparamref_of "A" (nominal "I32" TK_VAL))) ∧
    typeparamref_of "A" (nominal "I32" TK_VAL) ≠
      arrow_of (leaf TK_BOX) (nominal "U8" TK_VAL) := by
  refine ⟨rfl, rfl, rfl, ?_⟩
  intro h
  simp [typeparamref_of, arrow_of] at h

/-- C20 (amended): of a non-nominal candidate and a nominal candidate that has
a rank, `wide_literal` returns the non-nominal one and `narrow_literal` the
nominal one, in either argument order; hence a Union (of members that all
return, with ranked resolutions) resolves to the resolution of its first
member whose resolution is non-nominal, and an Intersection of such members
having a member that resolves to a ranked nominal resolves to a nominal member
resolution, of a rank not above that one. -/
theorem C20_non_nominal_is_widest (x n : ast_t) (i : Nat)
    (hx : ast_id x ≠ TK_NOMINAL) (hn : ast_id n = TK_NOMINAL)
    (hi : index_literal n = .ok i) :
    wide_literal (some x) (some n) = .ok (some x) ∧
    wide_literal (some n) (some x) = .ok (some x) ∧
    narrow_literal (some x) (some n) = .ok (some n) ∧
    narrow_literal (some n) (some x) = .ok (some n) ∧
    (∀ (env : env_t) (fuel : Nat) (literal_id : token_id) (target mx : ast_t)
        (pre post : List ast_t),
      (literal_id = TK_INTLITERAL ∨ literal_id = TK_FLOATLITERAL) →
      ast_id target = TK_UNIONTYPE →
      ast_children target = pre ++ mx :: post →
      (∀ m ∈ ast_children target, ∃ r, is_literal_subtype env fuel literal_id m = .ok r ∧
        ∀ t, r = some t → ∃ j, index_literal t = .ok j) →
      (∀ m ∈ pre, ∀ t, is_literal_subtype env fuel literal_id m = .ok (some t) →
        ast_id t = TK_NOMINAL) →
      is_literal_subtype env fuel literal_id mx = .ok (some x) →
      is_literal_subtype env (fuel + 1) literal_id target = .ok (some x)) ∧
    (∀ (env : env_t) (fuel : Nat) (literal_id : token_id) (target mn : ast_t),
      (literal_id = TK_INTLITERAL ∨ literal_id = TK_FLOATLITERAL) →
      ast_id target = TK_ISECTTYPE →
      (∀ m ∈ ast_children target, ∃ r, is_literal_subtype env fuel literal_id m = .ok r ∧
        ∀ t, r = some t → ∃ j, index_literal t = .ok j) →
      mn ∈ ast_children target →
      is_literal_subtype env fuel literal_id mn = .ok (some n) →
      ∃ t, is_literal_subtype env (fuel + 1) literal_id target = .ok (some t) ∧
        ast_id t = TK_NOMINAL ∧ rank_leq t n ∧
        ∃ m ∈ ast_children target,
          is_literal_subtype env fuel literal_id m = .ok (some t)) := by
  have hxi := index_literal_non_nominal x hx
  have hlt := index_literal_nominal_lt n i hn hi
  have hmax := twelve_lt_SIZE_MAX
  refine ⟨?_, ?_, ?_, ?_, ?_, ?_⟩
  · have : SIZE_MAX ≥ i := by omega
    simp [wide_literal, hxi, hi, this]
  · have : ¬ i ≥ SIZE_MAX := by omega
    simp [wide_literal, hxi, hi, this]
  · have : ¬ SIZE_MAX ≤ i := by omega
    simp [narrow_literal, hxi, hi, this]
  · have : i ≤ SIZE_MAX := by omega
    simp [narrow_literal, hxi, hi, this]
  · intro env fuel literal_id target mx pre post hlit hid hsplit hmem hpre hres
    rw [hsplit] at hmem
    have hmem_pre : ∀ m ∈ pre, ∃ r, is_literal_subtype env fuel literal_id m = .ok r ∧
        ∀ t, r = some t → ∃ j, index_literal t = .ok j :=
      fun m hm => hmem m (List.mem_append_left _ hm)
    have hmem_post : ∀ m ∈ post, ∃ r, is_literal_subtype env fuel literal_id m = .ok r ∧
        ∀ t, r = some t → ∃ j, index_literal t = .ok j :=
      fun m hm => hmem m (List.mem_append_right _ (List.mem_cons_of_mem _ hm))
    obtain ⟨r1, hloop1, _, hsome1⟩ :=
      union_literal_loop_spec (is_literal_subtype env fuel) literal_id pre none hmem_pre
        (by intro t ht; simp at ht)
    have hw : wide_literal r1 (some x) = .ok (some x) := by
      cases r1 with
      | none => rfl
      | some t =>
        obtain ⟨hfrom, _⟩ := hsome1 t rfl
        rcases hfrom with h | ⟨m, hm, hmt⟩
        · simp at h
        · have hnom := hpre m hm t hmt
          obtain ⟨r, hr, hrt⟩ := hmem_pre m hm
          rw [hmt] at hr
          simp only [Except.ok.injEq] at hr
          obtain ⟨j, hj⟩ := hrt t hr.symm
          have hj12 := index_literal_nominal_lt t j hnom hj
          have : ¬ j ≥ SIZE_MAX := by omega
          simp [wide_literal, hxi, hj, this]
    rw [is_literal_subtype_union_target env fuel literal_id hlit target hid, hsplit,
      union_literal_loop_append (is_literal_subtype env fuel) literal_id (mx :: post) pre
        none r1 hloop1,
      union_literal_loop]
    simp only [hres, hw]
    exact union_literal_loop_keeps_non_nominal (is_literal_subtype env fuel) literal_id x hx
      post hmem_post
  · intro env fuel literal_id target mn hlit hid hmem hmn hres
    obtain ⟨res, hloop, hnone, hsome⟩ :=
      isect_literal_loop_spec (is_literal_subtype env fuel) literal_id
        (ast_children target) none hmem (by intro t ht; simp at ht)
    rw [is_literal_subtype_isect_target env fuel literal_id hlit target hid, hloop]
    cases res with
    | none =>
      have := (hnone.mp rfl).2 mn hmn
      rw [hres] at this
      simp at this
    | some t =>
      obtain ⟨hfrom, hle⟩ := hsome t rfl
      have hrank := hle n (Or.inr ⟨mn, hmn, hres⟩)
      obtain ⟨a, b, ha, hb, hab⟩ := hrank
      rw [hi] at hb
      simp only [Except.ok.injEq] at hb
      refine ⟨t, rfl, ?_, ⟨a, b, ha, by rw [hi, hb], hab⟩, ?_⟩
      · by_contra hnn
        rw [index_literal_non_nominal t hnn] at ha
        simp only [Except.ok.injEq] at ha
        omega
      · rcases hfrom with h | h
        · simp at h
        · exact h

theorem C20_non_nominal_is_widest_witness :
    ast_id (arrow_of (leaf TK_BOX) (nominal "U8" TK_VAL)) ≠ TK_NOMINAL ∧
    ast_id (nominal "I32" TK_VAL) = TK_NOMINAL ∧
    index_literal (nominal "I32" TK_VAL) = .ok 5 ∧
    wide_literal (some (nominal "I32" TK_VAL))
        (some (arrow_of (leaf TK_BOX) (nominal "U8" TK_VAL))) =
      .ok (some (arrow_of (leaf TK_BOX) (nominal "U8" TK_VAL))) ∧
    narrow_literal (some (arrow_of (leaf TK_BOX) (nominal "U8" TK_VAL)))
        (some (nominal "I32" TK_VAL)) = .ok (some (nominal "I32" TK_VAL)) ∧
    is_literal_subtype usual_env (3 + 1) TK_INTLITERAL
        (union_of [nominal "I32" TK_VAL, arrow_of (leaf TK_BOX) (nominal "U8" TK_VAL),
          typeparamref_of "A" (nominal "I32" TK_VAL)]) =
      .ok (some (arrow_of (leaf TK_BOX) (nominal "U8" TK_VAL))) ∧
    is_literal_subtype usual_env 3 TK_INTLITERAL
        (isect_of [arrow_of (leaf TK_BOX) (nominal "U8" TK_VAL), nominal "I32" TK_VAL]) =
      .ok (some (nominal "I32" TK_VAL)) :=
  have h := C20_non_nominal_is_widest (arrow_of (leaf TK_BOX) (nominal "U8" TK_VAL))
    (nominal "I32" TK_VAL) 5 (by decide) rfl rfl
  ⟨by decide, rfl, rfl, h.2.1, h.2.2.1,
    h.2.2.2.2.1 usual_env 3 TK_INTLITERAL
      (union_of [nominal "I32" TK_VAL, arrow_of (leaf TK_BOX) (nominal "U8" TK_VAL),
        typeparamref_of "A" (nominal "I32" TK_VAL)])
      (arrow_of (leaf TK_BOX) (nominal "U8" TK_VAL))
      [nominal "I32" TK_VAL] [typeparamref_of "A" (nominal "I32" TK_VAL)]
      (Or.inl rfl) rfl rfl
      (by
        intro m hm
        simp only [union_of, ast_children_mk, List.mem_cons, List.mem_singleton,
          List.not_mem_nil, or_false] at hm
        rcases hm with h1 | h1 | h1
        · subst h1
          refine ⟨some (nominal "I32" TK_VAL), rfl, ?_⟩
          intro t ht
          simp only [Option.some.injEq] at ht
          subst ht
          exact ⟨5, rfl⟩
        · subst h1
          refine ⟨some (arrow_of (leaf TK_BOX) (nominal "U8" TK_VAL)), rfl, ?_⟩
          intro t ht
          simp only [Option.some.injEq] at ht
          subst ht
          exact ⟨SIZE_MAX, rfl⟩
        · subst h1
          refine ⟨some (typeparamref_of "A" (nominal "I32" TK_VAL)), rfl, ?_⟩
          intro t ht
          simp only [Option.some.injEq] at ht
          subst ht
          exact ⟨SIZE_MAX, rfl⟩)
      (by
        intro m hm t ht
        simp only [List.mem_singleton] at hm
        subst hm
        have e : is_literal_subtype usual_env 3 TK_INTLITERAL (nominal "I32" TK_VAL) =
            .ok (some (nominal "I32" TK_VAL)) := rfl
        rw [e] at ht
        simp only [Except.ok.injEq, Option.some.injEq] at ht
        subst ht
        rfl)
      rfl,
    rfl⟩
